import Mathlib

set_option maxRecDepth 16000

/-
Verification development for the documentation-site maintenance toolkit
(scripts/generate-endpoint-docs.py, scripts/improve-endpoint-navigation.py,
scripts/add-service-level-navigation.py, scripts/update-docs-navigation.py,
scripts/update-llms-files.py).

The scripts are JSON-to-JSON batch transforms.  We shallowly embed the JSON
data model (`J`), Python's `json.load` / `json.dump(indent=2)` pair
(`loads` / `dumps2`), and each script's navigation logic, and prove the
specified properties about them.

Modelling conventions:
  * Python `dict`s become ordered association lists with Python's
    insertion-order semantics (`lookupK`, `setK`).
  * Strings are sequences of code points (`String` / `List Char`), matching
    Python's `str` indexing and `len` for the ASCII data these scripts
    process.
  * Recursion over JSON values uses explicit fuel; default fuel bounds are
    generous enough for any document the scripts process (Python itself has
    a recursion limit of about 1000 frames).
  * Where Python would raise (missing key, non-string where a string is
    required), the embedding returns `none` / leaves data unchanged; the
    theorems restrict to the well-formed documents on which the scripts run
    without raising.
-/

inductive J where
  | jnull : J
  | jbool : Bool → J
  | jnum : Int → J
  | jstr : String → J
  | jarr : List J → J
  | jobj : List (String × J) → J
deriving Repr

/-- Python dict lookup `d[k]` / `k in d` on an insertion-ordered
association list (keys are unique by construction). -/
def lookupK {α : Type} : List (String × α) → String → Option α
  | [], _ => none
  | (k, v) :: rest, key => if k = key then some v else lookupK rest key

/-- Python dict assignment `d[k] = v`: updates an existing key in place
(keeping its position), otherwise appends the new key at the end. -/
def setK {α : Type} : List (String × α) → String → α → List (String × α)
  | [], key, v => [(key, v)]
  | (k, w) :: rest, key, v =>
      if k = key then (k, v) :: rest else (k, w) :: setK rest key v

/-- Python `d[k] += 1` on an int-valued dict.  In every modelled execution
the key is present (the scripts assign `d[k] = 0` first); the absent-key
branch appends the key so the function is total. -/
def incrK : List (String × Nat) → String → List (String × Nat)
  | [], key => [(key, 1)]
  | (k, n) :: rest, key =>
      if k = key then (k, n + 1) :: rest else (k, n) :: incrK rest key

/-- Python `sum(d.values())`. -/
def sumVals (cs : List (String × Nat)) : Nat :=
  cs.foldl (fun a p => a + p.2) 0

/- ## Python `json.dump(obj, f, indent=2)` -/

/-- Indentation for nesting level `n` (two spaces per level). -/
def pad (n : Nat) : String := String.mk (List.replicate (2 * n) ' ')

def hexDig (n : Nat) : Char :=
  if n < 10 then Char.ofNat ('0'.toNat + n) else Char.ofNat ('a'.toNat + (n - 10))

def hex4 (n : Nat) : String :=
  String.mk [hexDig (n / 4096 % 16), hexDig (n / 256 % 16), hexDig (n / 16 % 16), hexDig (n % 16)]

/-- JSON string-character escaping as Python's serializer performs it with
the default `ensure_ascii=True` (non-ASCII code points become `\uXXXX`;
astral code points, which would need surrogate pairs, do not occur in the
documents these scripts process). -/
def escE (c : Char) : String :=
  if c = '"' then "\\\""
  else if c = '\\' then "\\\\"
  else if c = '\n' then "\\n"
  else if c = '\t' then "\\t"
  else if c = '\r' then "\\r"
  else if c = Char.ofNat 8 then "\\b"
  else if c = Char.ofNat 12 then "\\f"
  else if c.toNat < 32 || c.toNat > 127 then "\\u" ++ hex4 c.toNat
  else String.mk [c]

/-- A JSON string literal `"..."` with escaping. -/
def qstr (s : String) : String :=
  "\"" ++ String.join (s.data.map escE) ++ "\""

mutual
/-- Serialize one JSON value at nesting level `n`, following
`json.dump(..., indent=2)`: items one per line, item separator `,\n`,
key separator `: `, empty containers on one line. -/
def dV : Nat → Nat → J → String
  | 0, _, _ => ""
  | _+1, _, J.jnull => "null"
  | _+1, _, J.jbool b => if b then "true" else "false"
  | _+1, _, J.jnum i => toString i
  | _+1, _, J.jstr s => qstr s
  | _+1, _, J.jarr [] => "[]"
  | f+1, n, J.jarr (x :: xs) =>
      "[\n" ++ String.intercalate ",\n" (dL f (n + 1) (x :: xs)) ++ "\n" ++ pad n ++ "]"
  | _+1, _, J.jobj [] => "\x7b\x7d"
  | f+1, n, J.jobj (kv :: kvs) =>
      "\x7b\n" ++ String.intercalate ",\n" (dF f (n + 1) (kv :: kvs)) ++ "\n" ++ pad n ++ "\x7d"

/-- Serialize array items, one string per item, indented to level `n`. -/
def dL : Nat → Nat → List J → List String
  | 0, _, _ => []
  | _+1, _, [] => []
  | f+1, n, x :: xs => (pad n ++ dV f n x) :: dL f n xs

/-- Serialize object fields, one string per field, indented to level `n`. -/
def dF : Nat → Nat → List (String × J) → List String
  | 0, _, _ => []
  | _+1, _, [] => []
  | f+1, n, (k, v) :: kvs => (pad n ++ qstr k ++ ": " ++ dV f n v) :: dF f n kvs
end

/-- Python `json.dump(v, f, indent=2)`.  The fuel bounds the number of
recursive serializer calls; one million exceeds it for any document these
scripts process (Python's own recursion limit aborts far earlier). -/
def dumps2 (v : J) : String := dV 1000000 0 v

/- ## Python `json.load` -/

def wsChar (c : Char) : Bool := c == ' ' || c == '\n' || c == '\t' || c == '\r'

def skipWs : List Char → List Char
  | [] => []
  | c :: cs => if wsChar c then skipWs cs else c :: cs

def escDecode : Char → Option Char
  | 'n' => some '\n'
  | 't' => some '\t'
  | 'r' => some '\r'
  | 'b' => some (Char.ofNat 8)
  | 'f' => some (Char.ofNat 12)
  | '"' => some '"'
  | '\\' => some '\\'
  | '/' => some '/'
  | _ => none

/-- Parse the body of a JSON string literal (after the opening quote) up to
and including the closing quote.  `\uXXXX` escapes and raw control
characters are rejected (`none`), conservatively narrowing the model. -/
def pStrL : List Char → Option (List Char × List Char)
  | [] => none
  | '"' :: rest => some ([], rest)
  | '\\' :: e :: rest =>
      match escDecode e, pStrL rest with
      | some c, some (v, r) => some (c :: v, r)
      | _, _ => none
  | c :: rest =>
      if c.toNat < 32 then none
      else match pStrL rest with
        | some (v, r) => some (c :: v, r)
        | none => none

def takeDigits : List Char → (List Char × List Char)
  | [] => ([], [])
  | c :: cs =>
      if '0' ≤ c && c ≤ '9' then
        match takeDigits cs with
        | (d, r) => (c :: d, r)
      else ([], c :: cs)

def digitsToNat (ds : List Char) : Nat :=
  ds.foldl (fun a c => a * 10 + (c.toNat - '0'.toNat)) 0

/-- Python rebuilds a parsed JSON object by inserting its fields into a
fresh dict in textual order (a duplicate key keeps the first position but
takes the last value). -/
def objBuild (kvs : List (String × J)) : List (String × J) :=
  kvs.foldl (fun acc kv => setK acc kv.1 kv.2) []

mutual
/-- Parse one JSON value.  Floats and exponents are rejected (`none`); the
documents these scripts process contain none. -/
def pVal : Nat → List Char → Option (J × List Char)
  | 0, _ => none
  | f+1, s =>
    match s with
    | 'n' :: 'u' :: 'l' :: 'l' :: rest => some (J.jnull, rest)
    | 't' :: 'r' :: 'u' :: 'e' :: rest => some (J.jbool true, rest)
    | 'f' :: 'a' :: 'l' :: 's' :: 'e' :: rest => some (J.jbool false, rest)
    | '"' :: rest =>
        match pStrL rest with
        | some (v, r) => some (J.jstr (String.mk v), r)
        | none => none
    | '[' :: rest => pArr f (skipWs rest)
    | '\x7b' :: rest => pObj f (skipWs rest)
    | '-' :: rest =>
        match takeDigits rest with
        | ([], _) => none
        | (ds, r) => some (J.jnum (-(digitsToNat ds : Int)), r)
    | c :: rest =>
        if '0' ≤ c && c ≤ '9' then
          match takeDigits (c :: rest) with
          | (ds, r) => some (J.jnum (digitsToNat ds : Int), r)
        else none
    | [] => none

/-- Parse array contents from just after `[` (whitespace skipped). -/
def pArr : Nat → List Char → Option (J × List Char)
  | 0, _ => none
  | f+1, s =>
    match s with
    | ']' :: rest => some (J.jarr [], rest)
    | _ =>
      match pVal f s with
      | some (v, r) =>
        match pArrTail f (skipWs r) with
        | some (vs, r2) => some (J.jarr (v :: vs), r2)
        | none => none
      | none => none

/-- Parse the rest of an array, positioned at `,` or `]`. -/
def pArrTail : Nat → List Char → Option (List J × List Char)
  | 0, _ => none
  | f+1, s =>
    match s with
    | ']' :: rest => some ([], rest)
    | ',' :: rest =>
      match pVal f (skipWs rest) with
      | some (v, r) =>
        match pArrTail f (skipWs r) with
        | some (vs, r2) => some (v :: vs, r2)
        | none => none
      | none => none
    | _ => none

/-- Parse object contents from just after the opening brace. -/
def pObj : Nat → List Char → Option (J × List Char)
  | 0, _ => none
  | f+1, s =>
    match s with
    | '\x7d' :: rest => some (J.jobj [], rest)
    | _ =>
      match pField f s with
      | some (kv, r) =>
        match pObjTail f (skipWs r) with
        | some (kvs, r2) => some (J.jobj (objBuild (kv :: kvs)), r2)
        | none => none
      | none => none

/-- Parse the rest of an object, positioned at `,` or the closing brace. -/
def pObjTail : Nat → List Char → Option (List (String × J) × List Char)
  | 0, _ => none
  | f+1, s =>
    match s with
    | '\x7d' :: rest => some ([], rest)
    | ',' :: rest =>
      match pField f (skipWs rest) with
      | some (kv, r) =>
        match pObjTail f (skipWs r) with
        | some (kvs, r2) => some (kv :: kvs, r2)
        | none => none
      | none => none
    | _ => none

/-- Parse one `"key": value` field. -/
def pField : Nat → List Char → Option ((String × J) × List Char)
  | 0, _ => none
  | f+1, s =>
    match s with
    | '"' :: rest =>
      match pStrL rest with
      | some (k, r) =>
        match skipWs r with
        | ':' :: r2 =>
          match pVal f (skipWs r2) with
          | some (v, r3) => some ((String.mk k, v), r3)
          | none => none
        | _ => none
      | none => none
    | _ => none
end

/-- Python `json.load` on file content `s`: parse one value, allow only
trailing whitespace. -/
def loads (s : String) : Option J :=
  match pVal (4 * s.length + 16) (skipWs s.data) with
  | some (v, r) => if skipWs r = [] then some v else none
  | none => none

/- ## generate-endpoint-docs.py -/

/-- The `name.replace("/api/", "")` step of `sanitize_filename`
(scripts/generate-endpoint-docs.py line 21): Python `str.replace` removes
every occurrence of the substring, scanning left to right without overlap. -/
def dropApiAll : List Char → List Char
  | '/' :: 'a' :: 'p' :: 'i' :: '/' :: rest => dropApiAll rest
  | c :: cs => c :: dropApiAll cs
  | [] => []

/-- Membership in the character class `[a-z0-9-]` kept by
`re.sub(r'[^a-z0-9\-]', '', name)`. -/
def keepCh (c : Char) : Bool :=
  ('a' ≤ c && c ≤ 'z') || ('0' ≤ c && c ≤ '9') || c == '-'

/-- `sanitize_filename` (scripts/generate-endpoint-docs.py lines 18-26):
remove every occurrence of "/api/", lower-case, turn `/` into `-`, then
delete everything outside `[a-z0-9-]`.  `Char.toLower` matches Python
`str.lower` on the ASCII path strings processed here. -/
def sanitize_filename (name : String) : String :=
  String.mk ((((dropApiAll name.data).map Char.toLower).map
    (fun c => if c = '/' then '-' else c)).filter keepCh)

/-- The characters of "/api/". -/
def apiPat : List Char := ['/', 'a', 'p', 'i', '/']

/-- Strip one leading "/api/" prefix (and nothing else). -/
def specStrip : List Char → List Char
  | '/' :: 'a' :: 'p' :: 'i' :: '/' :: rest => rest
  | l => l

/-- Modelled from the spec: the identifier derivation as the specification
words it — "stripping a fixed known prefix from `path`" (a leading "/api/"
only), then lower-casing, replacing `/` by `-`, and deleting characters
outside `[a-z0-9-]`.  Used to compare the spec's wording with the code's
replace-all behaviour. -/
def sanitizeSpecModel (name : String) : String :=
  String.mk ((((specStrip name.data).map Char.toLower).map
    (fun c => if c = '/' then '-' else c)).filter keepCh)

/-- The description-truncation step of `generate_mdx_content`
(scripts/generate-endpoint-docs.py lines 44-46):
`if len(desc) > 160: desc = desc[:157] + "..."`. -/
def truncate_description (desc : String) : String :=
  if desc.length > 160 then String.mk (desc.data.take 157) ++ "..." else desc

/- ## improve-endpoint-navigation.py -/

/-- The part of a path after the last `/` (pathlib's `name` on the POSIX
paths these scripts build). -/
def baseNameL (l : List Char) : List Char :=
  (l.reverse.takeWhile (fun c => c ≠ '/')).reverse

/-- Pathlib's `stem`: the name with its last suffix removed; a suffix needs
a dot at an index `i` with `0 < i < len(name) - 1`. -/
def stemL (name : List Char) : List Char :=
  match name.reverse.findIdx? (fun c => c == '.') with
  | some j =>
      let i := name.length - 1 - j
      if 0 < i ∧ i < name.length - 1 then name.take i else name
  | none => name

/-- Bool test that `p` is a prefix of the second list. -/
def isPreL : List Char → List Char → Bool
  | [], _ => true
  | _ :: _, [] => false
  | p :: ps, c :: cs => p == c && isPreL ps cs

/-- Python's substring test `pat in s`. -/
def hasSubL : List Char → List Char → Bool
  | [], pat => pat.isEmpty
  | c :: cs, pat => isPreL pat (c :: cs) || hasSubL cs pat

/-- Python `word in filename` on strings. -/
def wordIn (w : String) (f : String) : Bool := hasSubL f.data w.data

/-- `Path(page).stem.lower()` (scripts/improve-endpoint-navigation.py
line 141). -/
def actStemLower (p : String) : String :=
  String.mk ((stemL (baseNameL p.data)).map Char.toLower)

/-- Keyword test of line 144: create/add/upload/generate/initiate/calibrate. -/
def isCreateW (f : String) : Bool :=
  wordIn "create" f || wordIn "add" f || wordIn "upload" f ||
  wordIn "generate" f || wordIn "initiate" f || wordIn "calibrate" f

/-- Keyword test of line 146: get/find/search/list. -/
def isGetW (f : String) : Bool :=
  wordIn "get" f || wordIn "find" f || wordIn "search" f || wordIn "list" f

/-- Keyword test of line 148: update/edit/modify/assign/remove/revoke/suspend/unsuspend. -/
def isUpdW (f : String) : Bool :=
  wordIn "update" f || wordIn "edit" f || wordIn "modify" f ||
  wordIn "assign" f || wordIn "remove" f || wordIn "revoke" f ||
  wordIn "suspend" f || wordIn "unsuspend" f

/-- Keyword test of line 150: delete/erase. -/
def isDelW (f : String) : Bool := wordIn "delete" f || wordIn "erase" f

/-- The five accumulating buckets of `categorize_endpoints`. -/
structure Cat5 where
  creates : List String
  gets : List String
  upds : List String
  dels : List String
  others : List String

/-- One iteration of the `for page in pages` loop of
`categorize_endpoints` (lines 139-153): append the page to the first
matching bucket. -/
def catStep (acc : Cat5) (page : String) : Cat5 :=
  let f := actStemLower page
  if isCreateW f then { acc with creates := acc.creates ++ [page] }
  else if isGetW f then { acc with gets := acc.gets ++ [page] }
  else if isUpdW f then { acc with upds := acc.upds ++ [page] }
  else if isDelW f then { acc with dels := acc.dels ++ [page] }
  else { acc with others := acc.others ++ [page] }

/-- `categorize_endpoints` (scripts/improve-endpoint-navigation.py lines
129-156): partition pages into the five fixed action buckets, then drop
empty buckets, keeping the fixed declaration order. -/
def categorize_endpoints (pages : List String) : List (String × List String) :=
  let r := pages.foldl catStep ⟨[], [], [], [], []⟩
  ([("Create & Add", r.creates), ("Get & Find", r.gets),
    ("Update & Modify", r.upds), ("Delete & Remove", r.dels),
    ("Other Operations", r.others)]).filter (fun kv => !kv.2.isEmpty)

/-- Check that every page entry is a string, returning the strings. -/
def allStrs : List J → Option (List String)
  | [] => some []
  | J.jstr s :: rest => (allStrs rest).map (fun l => s :: l)
  | _ => none

/-- The accordion sub-Groups built at lines 229-234: one `group`/`pages`
object per non-empty action bucket. -/
def accSubgroups (ps : List String) : List J :=
  (categorize_endpoints ps).map
    (fun kv => J.jobj [("group", J.jstr kv.1), ("pages", J.jarr (kv.2.map J.jstr))])

/-- The body of the `for group in api_tab['groups'][1:]` loop of
`create_accordion_navigation` (lines 214-239): a category with more than
10 pages is rebuilt with accordion sub-Groups, a smaller one is kept
as-is.  Where Python would raise (missing keys, a non-string page in a
large category) the embedding leaves the group unchanged; the theorems
restrict to the well-formed groups on which the script runs. -/
def accTransformGroup (g : J) : J :=
  match g with
  | J.jobj kvs =>
    match lookupK kvs "group", lookupK kvs "pages" with
    | some (J.jstr n), some (J.jarr ps) =>
        if ps.length > 10 then
          match allStrs ps with
          | some strs =>
              J.jobj [("group", J.jstr n), ("pages", J.jarr (accSubgroups strs))]
          | none => g
        else g
    | _, _ => g
  | _ => g

/- ### update_endpoint_icon (lines 109-127) -/

/-- The literal part of the regex `icon: "[^\x22]*"` before the quoted value. -/
def iconPat : List Char := ['i', 'c', 'o', 'n', ':', ' ', '"']

/-- Consume an expected literal pattern, returning the remainder. -/
def eatPat : List Char → List Char → Option (List Char)
  | [], s => some s
  | _ :: _, [] => none
  | p :: ps, c :: cs => if p = c then eatPat ps cs else none

/-- Consume `[^\x22]*"`: the characters before the next quote, and the
remainder after that quote.  No closing quote means no match. -/
def scanQuote : List Char → Option (List Char × List Char)
  | [] => none
  | '"' :: rest => some ([], rest)
  | c :: rest => (scanQuote rest).map (fun pr => (c :: pr.1, pr.2))

/-- Try to match the regex `icon: "[^\x22]*"` at the head of `s`,
returning the quoted value and the remainder after the match. -/
def tryIcon (s : List Char) : Option (List Char × List Char) :=
  match eatPat iconPat s with
  | some r => scanQuote r
  | none => none

/-- Decompose content into literal characters (`Sum.inl`) and matched
icon values (`Sum.inr`), scanning left to right without overlap exactly
as `re.sub` does. -/
def decompF : Nat → List Char → List (Sum Char (List Char))
  | 0, _ => []
  | _+1, [] => []
  | f+1, c :: cs =>
      match tryIcon (c :: cs) with
      | some (v, rest) => Sum.inr v :: decompF f rest
      | none => Sum.inl c :: decompF f cs

def decompIcon (l : List Char) : List (Sum Char (List Char)) :=
  decompF (l.length + 1) l

/-- Reassemble a decomposition, writing each matched region with the
replacement icon (the `re.sub` output). -/
def renderPiece (icon : List Char) : Sum Char (List Char) → List Char
  | Sum.inl c => [c]
  | Sum.inr _ => iconPat ++ icon ++ ['"']

/-- Reassemble a decomposition with the original matched values. -/
def renderOrigPiece : Sum Char (List Char) → List Char
  | Sum.inl c => [c]
  | Sum.inr v => iconPat ++ v ++ ['"']

def renderIcon (d : List (Sum Char (List Char))) (icon : List Char) : List Char :=
  (d.map (renderPiece icon)).flatten

def renderOrig (d : List (Sum Char (List Char))) : List Char :=
  (d.map renderOrigPiece).flatten

/-- Does the content contain a match of `icon: "[^\x22]*"` anywhere? -/
def hasIconF : List Char → Bool
  | [] => false
  | c :: cs => (tryIcon (c :: cs)).isSome || hasIconF cs

/-- `update_endpoint_icon` (scripts/improve-endpoint-navigation.py lines
109-127), as (resulting file content, returned Bool): run the
substitution; if the result differs from the original, the file is
rewritten and True is returned, otherwise nothing is written and False is
returned. -/
def update_endpoint_icon (content new_icon : String) : String × Bool :=
  let updated := String.mk (renderIcon (decompIcon content.data) new_icon.data)
  if updated = content then (content, false) else (updated, true)

/- ## Navigation document access shared by the three merge scripts -/

/-- `docs_data['navigation']['tabs']` as a list. -/
def getTabs (d : J) : Option (List J) :=
  match d with
  | J.jobj kvs =>
    match lookupK kvs "navigation" with
    | some (J.jobj nkvs) =>
      match lookupK nkvs "tabs" with
      | some (J.jarr ts) => some ts
      | _ => none
    | _ => none
  | _ => none

/-- `tab['tab'] == 'API reference'` (a malformed tab, where Python would
raise, tests false; the theorems hypothesise well-formed tabs). -/
def isApiTab (t : J) : Bool :=
  match t with
  | J.jobj kvs =>
    match lookupK kvs "tab" with
    | some (J.jstr s) => s == "API reference"
    | _ => false
  | _ => false

/-- Index of the first element satisfying `p`. -/
def findIdxA {α : Type} (p : α → Bool) : List α → Option Nat
  | [] => none
  | t :: ts => if p t then some 0 else (findIdxA p ts).map (fun i => i + 1)

/-- The `for tab in tabs: if tab['tab'] == 'API reference': break` search:
index of the first matching tab. -/
def findApiTab (ts : List J) : Option Nat := findIdxA isApiTab ts

/-- Write back a mutated tabs list (Python mutates the nested dict in
place, preserving all key positions). -/
def setTabs (d : J) (ts : List J) : J :=
  match d with
  | J.jobj kvs =>
    match lookupK kvs "navigation" with
    | some (J.jobj nkvs) =>
        J.jobj (setK kvs "navigation" (J.jobj (setK nkvs "tabs" (J.jarr ts))))
    | _ => d
  | _ => d

/-- `api_tab['groups'] = new_groups`: in-place field assignment on a tab. -/
def jSetField (t : J) (k : String) (v : J) : J :=
  match t with
  | J.jobj kvs => J.jobj (setK kvs k v)
  | _ => t

/-- The hard-coded introduction group built by
scripts/update-docs-navigation.py lines 43-46 and
scripts/improve-endpoint-navigation.py lines 206-209. -/
def introGroupJ : J :=
  J.jobj [("group", J.jstr "API documentation"),
          ("pages", J.jarr [J.jstr "api-reference/introduction"])]

/-- Final state of one script run over the navigation document:
the docs.json content, the backup file content (if written), and whether
the run stopped on an error instead of completing the merge. -/
structure RunOut where
  docs : String
  backup : Option String
  err : Bool
deriving Repr

/- ## update-docs-navigation.py -/

/-- The value-level merge of `main` (scripts/update-docs-navigation.py
lines 31-49): locate the API reference tab and replace its groups with
the hard-coded intro group followed by the loaded endpoint navigation.
`none` when the tab is missing (or the document malformed). -/
def update_docs_core (d : J) (endpointNav : List J) : Option J :=
  match getTabs d with
  | none => none
  | some ts =>
    match findApiTab ts with
    | none => none
    | some i =>
      match ts[i]? with
      | none => none
      | some t =>
          some (setTabs d (ts.set i
            (jSetField t "groups" (J.jarr (introGroupJ :: endpointNav)))))

/-- `main` of scripts/update-docs-navigation.py at the file level: read
docs.json, write the backup (a re-serialization of the parsed document),
read _navigation.json, merge, and rewrite docs.json only on success. -/
def update_docs_main (docsBytes navBytes : String) : RunOut :=
  match loads docsBytes with
  | none => ⟨docsBytes, none, true⟩
  | some d =>
    let bk := dumps2 d
    match loads navBytes with
    | none => ⟨docsBytes, some bk, true⟩
    | some (J.jarr navList) =>
      match update_docs_core d navList with
      | some d2 => ⟨dumps2 d2, some bk, false⟩
      | none => ⟨docsBytes, some bk, true⟩
    | some _ => ⟨docsBytes, some bk, true⟩

/-- The value-level merge of `create_accordion_navigation`
(scripts/improve-endpoint-navigation.py lines 194-242): keep a hard-coded
intro group, transform every existing group after the first. -/
def accordion_core (d : J) : Option J :=
  match getTabs d with
  | none => none
  | some ts =>
    match findApiTab ts with
    | none => none
    | some i =>
      match ts[i]? with
      | none => none
      | some t =>
        match t with
        | J.jobj kvs =>
          match lookupK kvs "groups" with
          | some (J.jarr gs) =>
              some (setTabs d (ts.set i (jSetField t "groups"
                (J.jarr (introGroupJ :: (gs.drop 1).map accTransformGroup)))))
          | _ => none
        | _ => none

/-- `create_accordion_navigation` at the file level (lines 182-248). -/
def create_accordion_navigation (docsBytes : String) : RunOut :=
  match loads docsBytes with
  | none => ⟨docsBytes, none, true⟩
  | some d =>
    let bk := dumps2 d
    match accordion_core d with
    | some d2 => ⟨dumps2 d2, some bk, false⟩
    | none => ⟨docsBytes, some bk, true⟩

/- ## add-service-level-navigation.py -/

/-- The `SERVICE_GROUPS` table (scripts/add-service-level-navigation.py
lines 15-104) in its declared enumeration order. -/
def SERVICE_GROUPS : List (String × List String) := [
  ("Core Services",
   ["Access Control", "Camera", "Door", "Door Controller", "Doorbell Camera",
    "User", "Users", "Badge Reader", "Sensor", "Climate", "Button", "Relay",
    "Media Device"]),
  ("Events & Monitoring",
   ["Event", "Events", "Event Search", "Alert Monitoring",
    "Face Recognition Event", "Face Recognition Matchmaker",
    "Face Recognition Person", "Proximity", "Occupancy"]),
  ("Integrations",
   ["Access Control Integrations", "Service Management Integrations",
    "Incident Management Integrations", "IoT Integrations",
    "Storage Integrations", "Webhook Integrations", "Org Integrations",
    "Integrations"]),
  ("Organization & Management",
   ["Organization", "Org", "Location", "Locations", "Customer", "Partner",
    "License", "Permission", "User Metadata"]),
  ("Security & Access",
   ["OAuth", "Alarm Monitoring Keypad", "Guest Management Kiosk",
    "Lockdown Plan", "RapidSOS"]),
  ("Media & Video",
   ["Video", "Export", "AudioGateway", "AudioPlayback", "TvOS Config"]),
  ("Automation & Rules",
   ["Rules", "Rules Records", "Schedule", "Policies", "Policy"]),
  ("Device Management",
   ["Device Config", "Component", "Components", "BLE"]),
  ("Data & Reporting",
   ["Report", "Reports", "Search", "Logistics", "Vehicle", "Vehicles"]),
  ("Developer & System",
   ["Developer", "Feature", "Help", "Upload"])]

/-- The `for service, groups in SERVICE_GROUPS.items()` search of
`categorize_group`: first bucket whose member list contains the name. -/
def catFromTable : List (String × List String) → String → String
  | [], _ => "Other Services"
  | (svc, members) :: rest, n =>
      if members.contains n then svc else catFromTable rest n

/-- `categorize_group` (scripts/add-service-level-navigation.py lines
106-111). -/
def categorize_group (n : String) : String := catFromTable SERVICE_GROUPS n

/-- `group['group']` read by the organizing loop (a malformed group, where
Python would raise, reads as ""). -/
def getGName (g : J) : String :=
  match g with
  | J.jobj kvs =>
    match lookupK kvs "group" with
    | some (J.jstr s) => s
    | _ => ""
  | _ => ""

/-- `service_structure[service].append(group)` with creation on first use
(lines 150-153). -/
def appendServiceK (st : List (String × List J)) (k : String) (g : J) :
    List (String × List J) :=
  match lookupK st k with
  | some b => setK st k (b ++ [g])
  | none => st ++ [(k, [g])]

/-- One iteration of the `for group in existing_groups` loop (lines
144-153): route the group to the uncategorized list or its service bucket. -/
def svcStep (acc : List (String × List J) × List J) (g : J) :
    List (String × List J) × List J :=
  let s := categorize_group (getGName g)
  if s == "Other Services" then (acc.1, acc.2 ++ [g])
  else (appendServiceK acc.1 s g, acc.2)

def svcLoop (gs : List J) : List (String × List J) × List J :=
  gs.foldl svcStep ([], [])

/-- The emission order of lines 159-176: declared services that received
groups, in `SERVICE_GROUPS` order, then the non-empty sentinel bucket. -/
def serviceBucketsOut (gs : List J) : List (String × List J) :=
  ((SERVICE_GROUPS.map Prod.fst).filterMap
    (fun s => (lookupK (svcLoop gs).1 s).map (fun b => (s, b))))
  ++ (if (svcLoop gs).2.isEmpty then []
      else [("Other Services", (svcLoop gs).2)])

/-- A `{"group": service, "pages": [...]}` service group object. -/
def mkServiceGroup (kv : String × List J) : J :=
  J.jobj [("group", J.jstr kv.1), ("pages", J.jarr kv.2)]

/-- The value-level merge of `organize_with_service_groups` (lines
125-179): keep the existing first group, regroup the rest by service.
`none` when the tab is missing or its groups are absent/empty (Python
raises IndexError on an empty groups list). -/
def service_core (d : J) : Option J :=
  match getTabs d with
  | none => none
  | some ts =>
    match findApiTab ts with
    | none => none
    | some i =>
      match ts[i]? with
      | none => none
      | some t =>
        match t with
        | J.jobj kvs =>
          match lookupK kvs "groups" with
          | some (J.jarr (g0 :: rest)) =>
              some (setTabs d (ts.set i (jSetField t "groups"
                (J.jarr (g0 :: (serviceBucketsOut rest).map mkServiceGroup)))))
          | _ => none
        | _ => none

/-- `organize_with_service_groups` at the file level (lines 113-210). -/
def organize_with_service_groups (docsBytes : String) : RunOut :=
  match loads docsBytes with
  | none => ⟨docsBytes, none, true⟩
  | some d =>
    let bk := dumps2 d
    match service_core d with
    | some d2 => ⟨dumps2 d2, some bk, false⟩
    | none => ⟨docsBytes, some bk, true⟩

/- ## update-llms-files.py -/

/-- `endpoint_counts[current_category] += 1` guarded by the truthiness of
`current_category` (None and "" are falsy). -/
def ccBump (cc : Option String) (cs : List (String × Nat)) :
    List (String × Nat) :=
  match cc with
  | some s => if s == "" then cs else incrK cs s
  | none => cs

/-- The recursive `traverse` of `count_endpoints_in_nav`
(scripts/update-llms-files.py lines 28-49).  On a dict: a `group` field
rebinds the current category and resets its count; a list-valued `pages`
field counts string entries (under a truthy category) and recurses into
dict entries; then every dict value is traversed (so dict pages are
visited twice — harmless, since their counter is reset on each visit).
Group display names are strings in this schema; a non-string `group`
value is not rebound here, where Python would key the counts dict by that
object.  The fuel bounds the recursion depth (Python's own limit is
about 1000). -/
def travJ : Nat → J → Option String → List (String × Nat) → List (String × Nat)
  | 0, _, _, cs => cs
  | f+1, J.jobj kvs, cc, cs =>
      let cc2 := match lookupK kvs "group" with
        | some (J.jstr s) => some s
        | _ => cc
      let cs1 := match lookupK kvs "group" with
        | some (J.jstr s) => setK cs s 0
        | _ => cs
      let cs2 := match lookupK kvs "pages" with
        | some (J.jarr ps) =>
            ps.foldl (fun acc p =>
              match p with
              | J.jstr _ => ccBump cc2 acc
              | J.jobj pkvs => travJ f (J.jobj pkvs) cc2 acc
              | _ => acc) cs1
        | _ => cs1
      kvs.foldl (fun acc kv => travJ f kv.2 cc2 acc) cs2
  | f+1, J.jarr xs, cc, cs => xs.foldl (fun acc x => travJ f x cc acc) cs
  | _+1, _, _, cs => cs

/-- `count_endpoints_in_nav` (lines 24-52). -/
def count_endpoints_in_nav (nav : J) : List (String × Nat) :=
  travJ 1000 nav none []

/-- The `total_endpoints` aggregate of `analyze_docs_json` (line 88):
`sum(endpoint_counts.values())` over the counts of
`config.get("navigation", {})`. -/
def analyzeTotal (config : J) : Nat :=
  match config with
  | J.jobj kvs =>
      sumVals (count_endpoints_in_nav ((lookupK kvs "navigation").getD (J.jobj [])))
  | _ => 0

/-- A flat navigation group (display name and string page leaves), used to
state the summarizer claims over documents of the schema the scripts
write. -/
structure NavGroup where
  name : String
  pages : List String

/-- Encode a flat group as its JSON object. -/
def encG (g : NavGroup) : J :=
  J.jobj [("group", J.jstr g.name), ("pages", J.jarr (g.pages.map J.jstr))]

/-- Encode a one-tab navigation value (the `navigation` entry of
docs.json) with flat groups. -/
def encodeNav (t : String) (gs : List NavGroup) : J :=
  J.jobj [("tabs", J.jarr [J.jobj [("tab", J.jstr t),
    ("groups", J.jarr (gs.map encG))]])]

/- ## Derived observations used to state the claims -/

/-- The groups list of a tab object. -/
def tabGroups (t : J) : Option (List J) :=
  match t with
  | J.jobj kvs =>
    match lookupK kvs "groups" with
    | some (J.jarr gs) => some gs
    | _ => none
  | _ => none

/-- The Group sequence of the API reference tab of a navigation document. -/
def apiGroupsOf (d : J) : Option (List J) :=
  match getTabs d with
  | some ts =>
    match findApiTab ts with
    | some i =>
      match ts[i]? with
      | some t => tabGroups t
      | none => none
    | none => none
  | none => none

/-- The service bucket a navigation group object is routed to. -/
def catOfG (g : J) : String := categorize_group (getGName g)

/-- Effective predicate of the first `categorize_endpoints` branch. -/
def eCre (f : String) : Bool := isCreateW f

/-- Effective predicate of the `Get & Find` branch (earlier branches failed). -/
def eGet (f : String) : Bool := !isCreateW f && isGetW f

/-- Effective predicate of the `Update & Modify` branch. -/
def eUpd (f : String) : Bool := (!isCreateW f && !isGetW f) && isUpdW f

/-- Effective predicate of the `Delete & Remove` branch. -/
def eDel (f : String) : Bool := ((!isCreateW f && !isGetW f) && !isUpdW f) && isDelW f

/-- Effective predicate of the `Other Operations` fallback branch. -/
def eOth (f : String) : Bool := ((!isCreateW f && !isGetW f) && !isUpdW f) && !isDelW f

/- ## Shared helper lemmas -/

theorem lookupK_setK_self {α : Type} (kvs : List (String × α)) (k : String) (v : α) :
    lookupK (setK kvs k v) k = some v := by
  induction kvs with
  | nil => simp [setK, lookupK]
  | cons p rest ih =>
    obtain ⟨k0, v0⟩ := p
    by_cases h : k0 = k
    · simp [setK, lookupK, h]
    · simp [setK, lookupK, h, ih]

theorem lookupK_setK_ne {α : Type} (kvs : List (String × α)) (k k2 : String) (v : α)
    (h : k ≠ k2) : lookupK (setK kvs k v) k2 = lookupK kvs k2 := by
  induction kvs with
  | nil => simp [setK, lookupK, h]
  | cons p rest ih =>
    obtain ⟨k0, v0⟩ := p
    by_cases h0 : k0 = k
    · subst h0
      simp [setK, lookupK, h]
    · simp [setK, lookupK, h0, ih]

theorem setK_setK {α : Type} (kvs : List (String × α)) (k : String) (a b : α) :
    setK (setK kvs k a) k b = setK kvs k b := by
  induction kvs with
  | nil => simp [setK]
  | cons p rest ih =>
    obtain ⟨k0, v0⟩ := p
    by_cases h : k0 = k
    · simp [setK, h]
    · simp [setK, h, ih]

theorem setK_absent {α : Type} (kvs : List (String × α)) (k : String) (v : α)
    (h : lookupK kvs k = none) : setK kvs k v = kvs ++ [(k, v)] := by
  induction kvs with
  | nil => simp [setK]
  | cons p rest ih =>
    obtain ⟨k0, v0⟩ := p
    by_cases h0 : k0 = k
    · simp [lookupK, h0] at h
    · simp [lookupK, h0] at h
      simp [setK, h0, ih h]

theorem incrK_of_lookup (cs : List (String × Nat)) (k : String) (v : Nat)
    (h : lookupK cs k = some v) : incrK cs k = setK cs k (v + 1) := by
  induction cs with
  | nil => simp [lookupK] at h
  | cons p rest ih =>
    obtain ⟨k0, v0⟩ := p
    by_cases h0 : k0 = k
    · subst h0
      simp [lookupK] at h
      simp [incrK, setK, h]
    · simp [lookupK, h0] at h
      simp [incrK, setK, h0, ih h]

theorem lookupK_append_absent {α : Type} (kvs : List (String × α)) (k m : String) (v : α)
    (h : lookupK kvs m = none) :
    lookupK (kvs ++ [(k, v)]) m = if k = m then some v else none := by
  induction kvs with
  | nil => simp [lookupK]
  | cons p rest ih =>
    obtain ⟨k0, v0⟩ := p
    by_cases h0 : k0 = m
    · simp [lookupK, h0] at h
    · simp [lookupK, h0] at h ⊢
      exact ih h

theorem sumVals_shift (cs : List (String × Nat)) (a : Nat) :
    cs.foldl (fun x p => x + p.2) a = a + (cs.map Prod.snd).sum := by
  induction cs generalizing a with
  | nil => simp
  | cons p rest ih => simp [ih, Nat.add_assoc]

theorem sumVals_eq (cs : List (String × Nat)) : sumVals cs = (cs.map Prod.snd).sum := by
  simpa using sumVals_shift cs 0

/- ## Claim C9 -/

/-- Claim C9: a description longer than 160 characters is replaced by its
first 157 characters followed by the 3-character ellipsis marker, giving
length exactly 160, while a description of at most 160 characters is left
unmodified. -/
theorem c9_description_truncation (s : String) :
    (160 < s.length →
      truncate_description s = String.mk (s.data.take 157) ++ "..." ∧
      (truncate_description s).length = 160) ∧
    (s.length ≤ 160 → truncate_description s = s) := by
  constructor
  · intro h
    have hgt : s.length > 160 := h
    constructor
    · simp [truncate_description, hgt]
    · have he : truncate_description s = String.mk (s.data.take 157) ++ "..." := by
        simp [truncate_description, hgt]
      rw [he]
      show (s.data.take 157 ++ ['.', '.', '.']).length = 160
      have hlen : s.data.length = s.length := rfl
      simp [List.length_take]
      omega
  · intro h
    have : ¬ s.length > 160 := by omega
    simp [truncate_description, this]

/-- Witness for C9 at a 200-character description and a short one. -/
theorem c9_description_truncation_witness :
    (truncate_description (String.mk (List.replicate 200 'a'))).length = 160 ∧
    truncate_description "short description" = "short description" :=
  ⟨((c9_description_truncation (String.mk (List.replicate 200 'a'))).1
      (by simp [String.length])).2,
   (c9_description_truncation "short description").2 (by decide)⟩

/- ## Claim C8 -/

theorem isPreL_apiPat_head (rest : List Char) :
    isPreL apiPat ('/' :: 'a' :: 'p' :: 'i' :: '/' :: rest) = true := by
  simp [apiPat, isPreL]

theorem dropApiAll_cons (c : Char) (cs : List Char)
    (h : isPreL apiPat (c :: cs) = false) :
    dropApiAll (c :: cs) = c :: dropApiAll cs := by
  rw [dropApiAll.eq_def]
  split
  · rename_i heq
    rw [show c :: cs = '/' :: 'a' :: 'p' :: 'i' :: '/' :: _ from heq, isPreL_apiPat_head] at h
    simp at h
  · rename_i c2 cs2 heq
    rw [List.cons.injEq] at heq
    rw [heq.1, heq.2]
  · rename_i heq
    simp at heq

theorem dropApiAll_no_occurrence (l : List Char) (h : hasSubL l apiPat = false) :
    dropApiAll l = l := by
  induction l with
  | nil => rfl
  | cons c cs ih =>
    rw [hasSubL] at h
    simp only [Bool.or_eq_false_iff] at h
    rw [dropApiAll_cons c cs h.1, ih h.2]

theorem specStrip_no_occurrence (l : List Char) (h : hasSubL l apiPat = false) :
    specStrip l = l := by
  rw [specStrip.eq_def]
  split
  · rw [hasSubL, isPreL_apiPat_head] at h
    simp at h
  · rfl

/-- Counterexample to C8 as stated: on a path with an interior "/api/",
the code removes the occurrence (`str.replace` removes every occurrence),
while the spec's prefix-stripping derivation keeps it. -/
theorem c8_identifier_counterexample :
    sanitize_filename "x/api/y" = "xy" ∧
    sanitizeSpecModel "x/api/y" = "x-api-y" ∧
    sanitize_filename "x/api/y" ≠ sanitizeSpecModel "x/api/y" := by
  refine ⟨by decide, by decide, by decide⟩

/-- Claim C8 (amended): the derivation removes every occurrence of the
substring "/api/" (not only a leading prefix), lower-cases, maps `/` to
`-`, and keeps only `[a-z0-9-]`; it agrees with the spec's prefix-strip
description whenever "/api/" occurs at most once and only as a leading
prefix, and the claim's concrete example holds. -/
theorem c8_identifier_derivation :
    sanitize_filename "/api/camera/getCameraList" = "camera-getcameralist" ∧
    (∀ s : String, ∀ c ∈ (sanitize_filename s).data, keepCh c = true) ∧
    (∀ s : String, hasSubL s.data apiPat = false →
      sanitize_filename s = sanitizeSpecModel s) ∧
    (∀ r : List Char, hasSubL r apiPat = false →
      sanitize_filename (String.mk ('/' :: 'a' :: 'p' :: 'i' :: '/' :: r)) =
        sanitizeSpecModel (String.mk ('/' :: 'a' :: 'p' :: 'i' :: '/' :: r))) := by
  refine ⟨by decide, ?_, ?_, ?_⟩
  · intro s c hc
    exact List.of_mem_filter hc
  · intro s h
    unfold sanitize_filename sanitizeSpecModel
    rw [dropApiAll_no_occurrence s.data h, specStrip_no_occurrence s.data h]
  · intro r h
    unfold sanitize_filename sanitizeSpecModel
    show String.mk ((((dropApiAll ('/' :: 'a' :: 'p' :: 'i' :: '/' :: r)).map
        Char.toLower).map (fun c => if c = '/' then '-' else c)).filter keepCh) = _
    rw [dropApiAll, dropApiAll_no_occurrence r h]
    rfl

/-- Witness for C8: the no-occurrence and leading-prefix agreement cases
at concrete paths. -/
theorem c8_identifier_derivation_witness :
    sanitize_filename "x/y" = sanitizeSpecModel "x/y" ∧
    sanitize_filename "/api/camera/list" = sanitizeSpecModel "/api/camera/list" :=
  ⟨c8_identifier_derivation.2.2.1 "x/y" (by decide),
   c8_identifier_derivation.2.2.2 ('c' :: "amera/list".data) (by decide)⟩

/- ## Claim C2 -/

/-- Counterexample to C2 as stated: a merge run over a compactly
serialized navigation document succeeds, but the backup it writes is the
indent-2 re-serialization of the parsed document, not the document's
prior bytes. -/
theorem c2_backup_counterexample :
    (update_docs_main "\x7b\"navigation\":\x7b\"tabs\":[\x7b\"tab\":\"API reference\",\"groups\":[\x7b\"group\":\"Intro\",\"pages\":[\"x\"]\x7d]\x7d]\x7d\x7d" "[]").err = false ∧
    (update_docs_main "\x7b\"navigation\":\x7b\"tabs\":[\x7b\"tab\":\"API reference\",\"groups\":[\x7b\"group\":\"Intro\",\"pages\":[\"x\"]\x7d]\x7d]\x7d\x7d" "[]").backup.isSome = true ∧
    (update_docs_main "\x7b\"navigation\":\x7b\"tabs\":[\x7b\"tab\":\"API reference\",\"groups\":[\x7b\"group\":\"Intro\",\"pages\":[\"x\"]\x7d]\x7d]\x7d\x7d" "[]").backup ≠
      some "\x7b\"navigation\":\x7b\"tabs\":[\x7b\"tab\":\"API reference\",\"groups\":[\x7b\"group\":\"Intro\",\"pages\":[\"x\"]\x7d]\x7d]\x7d\x7d" := by
  refine ⟨by decide, by decide, by decide⟩

/-- Claim C2 (amended): before any mutation, each of the three merge
scripts writes as backup the indent-2 JSON serialization of the parsed
pre-merge document — a structurally identical copy, byte-for-byte equal
to the prior file exactly when that file was already in this
serialization. -/
theorem c2_backup_serialization (bytes navBytes : String) (d : J)
    (h : loads bytes = some d) :
    (update_docs_main bytes navBytes).backup = some (dumps2 d) ∧
    (create_accordion_navigation bytes).backup = some (dumps2 d) ∧
    (organize_with_service_groups bytes).backup = some (dumps2 d) := by
  refine ⟨?_, ?_, ?_⟩
  · rw [update_docs_main, h]
    cases hn : loads navBytes with
    | none => rfl
    | some nv =>
      cases nv <;> simp only <;> try rfl
      rename_i navList
      cases hc : update_docs_core d navList <;> rfl
  · rw [create_accordion_navigation, h]
    cases hc : accordion_core d <;> simp [hc]
  · rw [organize_with_service_groups, h]
    cases hc : service_core d <;> simp [hc]

/-- Witness for C2 (amended) at a concrete document. -/
theorem c2_backup_serialization_witness :
    (organize_with_service_groups "\x7b\"navigation\": \x7b\"tabs\": []\x7d\x7d").backup =
      some (dumps2 (J.jobj [("navigation", J.jobj [("tabs", J.jarr [])])])) :=
  (c2_backup_serialization "\x7b\"navigation\": \x7b\"tabs\": []\x7d\x7d" "[]"
    (J.jobj [("navigation", J.jobj [("tabs", J.jarr [])])]) (by rfl)).2.2

/- ## Claim C6 -/

theorem findIdxA_none_of_all {α : Type} (p : α → Bool) (l : List α)
    (h : ∀ x ∈ l, p x = false) : findIdxA p l = none := by
  induction l with
  | nil => rfl
  | cons x xs ih =>
    rw [findIdxA, h x (by simp), ih (fun y hy => h y (by simp [hy]))]
    rfl

/-- Claim C6: when no tab of the navigation document is named
"API reference", each merge script reports the configuration error and
the persisted document bytes are unchanged (only the backup is written). -/
theorem c6_missing_tab (bytes navBytes : String) (d : J) (ts : List J)
    (hl : loads bytes = some d) (ht : getTabs d = some ts)
    (habs : ∀ t ∈ ts, isApiTab t = false) :
    ((update_docs_main bytes navBytes).docs = bytes ∧
      (update_docs_main bytes navBytes).err = true) ∧
    ((create_accordion_navigation bytes).docs = bytes ∧
      (create_accordion_navigation bytes).err = true) ∧
    ((organize_with_service_groups bytes).docs = bytes ∧
      (organize_with_service_groups bytes).err = true) := by
  have hfind : findApiTab ts = none := findIdxA_none_of_all isApiTab ts habs
  have hcore1 : ∀ nav, update_docs_core d nav = none := by
    intro nav
    simp [update_docs_core, ht, hfind]
  have hcore2 : accordion_core d = none := by
    simp [accordion_core, ht, hfind]
  have hcore3 : service_core d = none := by
    simp [service_core, ht, hfind]
  refine ⟨?_, ?_, ?_⟩
  · rw [update_docs_main, hl]
    cases hn : loads navBytes with
    | none => exact ⟨rfl, rfl⟩
    | some nv => cases nv <;> simp [hcore1]
  · rw [create_accordion_navigation, hl]
    simp [hcore2]
  · rw [organize_with_service_groups, hl]
    simp [hcore3]

/-- Witness for C6 at a concrete document with an empty tabs list. -/
theorem c6_missing_tab_witness :
    (update_docs_main "\x7b\"navigation\": \x7b\"tabs\": []\x7d\x7d" "[]").docs =
      "\x7b\"navigation\": \x7b\"tabs\": []\x7d\x7d" ∧
    (organize_with_service_groups "\x7b\"navigation\": \x7b\"tabs\": []\x7d\x7d").err = true :=
  ⟨(c6_missing_tab "\x7b\"navigation\": \x7b\"tabs\": []\x7d\x7d" "[]"
      (J.jobj [("navigation", J.jobj [("tabs", J.jarr [])])]) [] (by rfl) (by rfl)
      (by simp)).1.1,
   (c6_missing_tab "\x7b\"navigation\": \x7b\"tabs\": []\x7d\x7d" "[]"
      (J.jobj [("navigation", J.jobj [("tabs", J.jarr [])])]) [] (by rfl) (by rfl)
      (by simp)).2.2.2⟩

/- ## Claim C1 -/

theorem getElem?_set_selfA {α : Type} (l : List α) (i : Nat) (a : α)
    (h : i < l.length) : (l.set i a)[i]? = some a := by
  induction l generalizing i with
  | nil => simp at h
  | cons x xs ih =>
    cases i with
    | zero => simp
    | succ j =>
      simp only [List.set]
      rw [List.getElem?_cons_succ]
      exact ih j (by simpa using h)

theorem getElem?_some_lt {α : Type} (l : List α) (i : Nat) (a : α)
    (h : l[i]? = some a) : i < l.length := by
  induction l generalizing i with
  | nil => simp at h
  | cons x xs ih =>
    cases i with
    | zero => simp
    | succ j =>
      rw [List.getElem?_cons_succ] at h
      have := ih j h
      simpa using this

theorem findIdxA_set {α : Type} (p : α → Bool) (l : List α) (i : Nat) (a : α)
    (h : findIdxA p l = some i) (ha : p a = true) :
    findIdxA p (l.set i a) = some i := by
  induction l generalizing i with
  | nil => simp [findIdxA] at h
  | cons x xs ih =>
    rw [findIdxA] at h
    by_cases hx : p x = true
    · rw [hx] at h
      simp at h
      subst h
      simp only [List.set]
      rw [findIdxA, ha]
      simp
    · rw [Bool.not_eq_true] at hx
      rw [hx] at h
      simp only [Bool.false_eq_true, if_false] at h
      cases hj : findIdxA p xs with
      | none => rw [hj] at h; simp at h
      | some j =>
        rw [hj] at h
        simp at h
        subst h
        simp only [List.set]
        rw [findIdxA, hx]
        simp [ih j hj]

theorem isApiTab_setGroups (t : J) (v : J) :
    isApiTab (jSetField t "groups" v) = isApiTab t := by
  cases t with
  | jobj kvs =>
    simp only [jSetField, isApiTab]
    rw [lookupK_setK_ne kvs "groups" "tab" v (by decide)]
  | jnull => rfl
  | jbool b => rfl
  | jnum i => rfl
  | jstr s => rfl
  | jarr xs => rfl

theorem getTabs_setTabs (d : J) (ts ts2 : List J) (h : getTabs d = some ts) :
    getTabs (setTabs d ts2) = some ts2 := by
  cases d with
  | jobj kvs =>
    simp only [getTabs] at h
    split at h
    · rename_i nkvs hnav
      split at h
      · rename_i ts0 htabs
        simp only [setTabs, hnav, getTabs]
        simp [lookupK_setK_self]
      · simp at h
    · simp at h
  | jnull => simp [getTabs] at h
  | jbool b => simp [getTabs] at h
  | jnum i => simp [getTabs] at h
  | jstr s => simp [getTabs] at h
  | jarr xs => simp [getTabs] at h

theorem tabGroups_setGroups (t : J) (kvs : List (String × J)) (newGs : List J)
    (htj : t = J.jobj kvs) :
    tabGroups (jSetField t "groups" (J.jarr newGs)) = some newGs := by
  subst htj
  simp only [jSetField, tabGroups]
  rw [lookupK_setK_self]

theorem isApiTab_jobj (t : J) (h : isApiTab t = true) :
    ∃ kvs, t = J.jobj kvs := by
  cases t with
  | jobj kvs => exact ⟨kvs, rfl⟩
  | jnull => simp [isApiTab] at h
  | jbool b => simp [isApiTab] at h
  | jnum i => simp [isApiTab] at h
  | jstr s => simp [isApiTab] at h
  | jarr xs => simp [isApiTab] at h

theorem findIdxA_spec {α : Type} (p : α → Bool) (l : List α) (i : Nat)
    (h : findIdxA p l = some i) : ∃ a, l[i]? = some a ∧ p a = true := by
  induction l generalizing i with
  | nil => simp [findIdxA] at h
  | cons x xs ih =>
    rw [findIdxA] at h
    by_cases hx : p x = true
    · rw [hx] at h
      simp at h
      subst h
      exact ⟨x, by simp, hx⟩
    · rw [Bool.not_eq_true] at hx
      rw [hx] at h
      simp only [Bool.false_eq_true, if_false] at h
      cases hj : findIdxA p xs with
      | none => rw [hj] at h; simp at h
      | some j =>
        rw [hj] at h
        simp at h
        subst h
        obtain ⟨a, ha, hpa⟩ := ih j hj
        exact ⟨a, by rw [List.getElem?_cons_succ]; exact ha, hpa⟩

theorem merged_apiGroups (d : J) (ts : List J) (i : Nat) (t : J)
    (kvs : List (String × J)) (newGs : List J)
    (hts : getTabs d = some ts) (hfind : findApiTab ts = some i)
    (hget : ts[i]? = some t) (htj : t = J.jobj kvs) (hapi : isApiTab t = true) :
    apiGroupsOf (setTabs d (ts.set i (jSetField t "groups" (J.jarr newGs)))) =
      some newGs := by
  have hlt : i < ts.length := getElem?_some_lt ts i t hget
  have hapi2 : isApiTab (jSetField t "groups" (J.jarr newGs)) = true := by
    rw [isApiTab_setGroups]; exact hapi
  have hfind2 : findApiTab (ts.set i (jSetField t "groups" (J.jarr newGs))) = some i :=
    findIdxA_set isApiTab ts i _ hfind hapi2
  have hgs : (ts.set i (jSetField t "groups" (J.jarr newGs)))[i]? =
      some (jSetField t "groups" (J.jarr newGs)) :=
    getElem?_set_selfA _ _ _ (by simpa using hlt)
  simp only [apiGroupsOf, getTabs_setTabs d ts _ hts, hfind2, hgs,
    tabGroups_setGroups t kvs newGs htj]

/-- Claim C1 (amended): the service-level regroup preserves element 0 of
the tab's existing Group sequence verbatim, but the full-replace update
and the accordion regroup set element 0 to the fixed hard-coded
introduction Group, which equals the pre-merge element 0 only when that
element was already this constant. -/
theorem c1_first_group :
    (∀ (d : J) (ts : List J) (i : Nat) (nav : List J),
      getTabs d = some ts → findApiTab ts = some i →
      ∃ d2, update_docs_core d nav = some d2 ∧
        ∃ gs2, apiGroupsOf d2 = some gs2 ∧ gs2.head? = some introGroupJ) ∧
    (∀ (d : J) (ts : List J) (i : Nat) (kvs : List (String × J)) (gs : List J),
      getTabs d = some ts → findApiTab ts = some i → ts[i]? = some (J.jobj kvs) →
      lookupK kvs "groups" = some (J.jarr gs) →
      ∃ d2, accordion_core d = some d2 ∧
        ∃ gs2, apiGroupsOf d2 = some gs2 ∧ gs2.head? = some introGroupJ) ∧
    (∀ (d : J) (ts : List J) (i : Nat) (kvs : List (String × J)) (g0 : J) (rest : List J),
      getTabs d = some ts → findApiTab ts = some i → ts[i]? = some (J.jobj kvs) →
      lookupK kvs "groups" = some (J.jarr (g0 :: rest)) →
      ∃ d2, service_core d = some d2 ∧
        ∃ gs2, apiGroupsOf d2 = some gs2 ∧ gs2.head? = some g0) := by
  refine ⟨?_, ?_, ?_⟩
  · intro d ts i nav hts hfind
    obtain ⟨t, hget, hapi⟩ := findIdxA_spec isApiTab ts i hfind
    obtain ⟨kvs, htj⟩ := isApiTab_jobj t hapi
    refine ⟨_, ?_, introGroupJ :: nav,
      merged_apiGroups d ts i t kvs _ hts hfind hget htj hapi, rfl⟩
    simp only [update_docs_core, hts, hfind, hget]
  · intro d ts i kvs gs hts hfind hget hgroups
    have hapi : isApiTab (J.jobj kvs) = true := by
      obtain ⟨t, hget2, hapi⟩ := findIdxA_spec isApiTab ts i hfind
      rw [hget] at hget2
      simp at hget2
      rw [hget2]
      exact hapi
    refine ⟨_, ?_, introGroupJ :: (gs.drop 1).map accTransformGroup,
      merged_apiGroups d ts i (J.jobj kvs) kvs _ hts hfind hget rfl hapi, rfl⟩
    simp only [accordion_core, hts, hfind, hget, hgroups]
  · intro d ts i kvs g0 rest hts hfind hget hgroups
    have hapi : isApiTab (J.jobj kvs) = true := by
      obtain ⟨t, hget2, hapi⟩ := findIdxA_spec isApiTab ts i hfind
      rw [hget] at hget2
      simp at hget2
      rw [hget2]
      exact hapi
    refine ⟨_, ?_, g0 :: (serviceBucketsOut rest).map mkServiceGroup,
      merged_apiGroups d ts i (J.jobj kvs) kvs _ hts hfind hget rfl hapi, rfl⟩
    simp only [service_core, hts, hfind, hget, hgroups]

/-- Counterexample to C1 as stated: the full-replace update on a document
whose existing first Group is not the hard-coded introduction constant
replaces element 0 with that constant instead of preserving it. -/
theorem c1_first_group_counterexample :
    (update_docs_core
      (J.jobj [("navigation", J.jobj [("tabs", J.jarr [J.jobj
        [("tab", J.jstr "API reference"),
         ("groups", J.jarr [J.jobj [("group", J.jstr "Intro"),
           ("pages", J.jarr [J.jstr "x"])]])]])])]) []).bind apiGroupsOf =
      some [introGroupJ] ∧
    apiGroupsOf
      (J.jobj [("navigation", J.jobj [("tabs", J.jarr [J.jobj
        [("tab", J.jstr "API reference"),
         ("groups", J.jarr [J.jobj [("group", J.jstr "Intro"),
           ("pages", J.jarr [J.jstr "x"])]])]])])]) =
      some [J.jobj [("group", J.jstr "Intro"), ("pages", J.jarr [J.jstr "x"])]] ∧
    introGroupJ ≠ J.jobj [("group", J.jstr "Intro"), ("pages", J.jarr [J.jstr "x"])] := by
  refine ⟨by rfl, by rfl, by simp [introGroupJ]⟩

/-- Witness for C1 (amended) at a concrete document: the service-level
regroup keeps the pre-merge first Group at position 0. -/
theorem c1_first_group_witness :
    ((service_core
      (J.jobj [("navigation", J.jobj [("tabs", J.jarr [J.jobj
        [("tab", J.jstr "API reference"),
         ("groups", J.jarr [J.jobj [("group", J.jstr "Intro"),
           ("pages", J.jarr [J.jstr "x"])]])]])])])).bind apiGroupsOf).map
        List.head? =
      some (some (J.jobj [("group", J.jstr "Intro"),
        ("pages", J.jarr [J.jstr "x"])])) := by
  obtain ⟨d2, hd2, gs2, hgs2, hhead⟩ :=
    c1_first_group.2.2
      (J.jobj [("navigation", J.jobj [("tabs", J.jarr [J.jobj
        [("tab", J.jstr "API reference"),
         ("groups", J.jarr [J.jobj [("group", J.jstr "Intro"),
           ("pages", J.jarr [J.jstr "x"])]])]])])])
      [J.jobj [("tab", J.jstr "API reference"),
         ("groups", J.jarr [J.jobj [("group", J.jstr "Intro"),
           ("pages", J.jarr [J.jstr "x"])]])]]
      0
      [("tab", J.jstr "API reference"),
       ("groups", J.jarr [J.jobj [("group", J.jstr "Intro"),
         ("pages", J.jarr [J.jstr "x"])]])]
      (J.jobj [("group", J.jstr "Intro"), ("pages", J.jarr [J.jstr "x"])])
      [] (by rfl) (by rfl) (by rfl) (by rfl)
  rw [hd2]
  simp [hgs2, hhead]

/- ## Claims C3 and C4: the endpoint categorizer -/

theorem catStep_fold (ps : List String) (acc : Cat5) :
    ps.foldl catStep acc =
      ⟨acc.creates ++ ps.filter (fun p => eCre (actStemLower p)),
       acc.gets ++ ps.filter (fun p => eGet (actStemLower p)),
       acc.upds ++ ps.filter (fun p => eUpd (actStemLower p)),
       acc.dels ++ ps.filter (fun p => eDel (actStemLower p)),
       acc.others ++ ps.filter (fun p => eOth (actStemLower p))⟩ := by
  induction ps generalizing acc with
  | nil => simp
  | cons p ps ih =>
    rw [List.foldl_cons, ih]
    simp only [catStep, eCre, eGet, eUpd, eDel, eOth, List.filter_cons]
    by_cases h1 : isCreateW (actStemLower p) = true
    · simp [h1]
    · rw [Bool.not_eq_true] at h1
      by_cases h2 : isGetW (actStemLower p) = true
      · simp [h1, h2]
      · rw [Bool.not_eq_true] at h2
        by_cases h3 : isUpdW (actStemLower p) = true
        · simp [h1, h2, h3]
        · rw [Bool.not_eq_true] at h3
          by_cases h4 : isDelW (actStemLower p) = true
          · simp [h1, h2, h3, h4]
          · rw [Bool.not_eq_true] at h4
            simp [h1, h2, h3, h4]

theorem categorize_endpoints_eq (ps : List String) :
    categorize_endpoints ps =
      ([("Create & Add", ps.filter (fun p => eCre (actStemLower p))),
        ("Get & Find", ps.filter (fun p => eGet (actStemLower p))),
        ("Update & Modify", ps.filter (fun p => eUpd (actStemLower p))),
        ("Delete & Remove", ps.filter (fun p => eDel (actStemLower p))),
        ("Other Operations", ps.filter (fun p => eOth (actStemLower p)))]).filter
        (fun kv => !kv.2.isEmpty) := by
  unfold categorize_endpoints
  rw [catStep_fold]
  simp

theorem flatten_filter_nonempty {α β : Type} (l : List (β × List α)) :
    ((l.filter (fun kv => !kv.2.isEmpty)).map Prod.snd).flatten =
      (l.map Prod.snd).flatten := by
  induction l with
  | nil => rfl
  | cons kv rest ih =>
    by_cases h : kv.2.isEmpty = true
    · have h2 : kv.2 = [] := List.isEmpty_iff.mp h
      simp [List.filter_cons, h, h2, ih]
    · rw [Bool.not_eq_true] at h
      simp [List.filter_cons, h, ih]

theorem filter_and_of_filter {α : Type} (l : List α) (p q : α → Bool) :
    (l.filter p).filter q = l.filter (fun x => p x && q x) := by
  rw [List.filter_filter]
  exact List.filter_congr (fun x hx => by cases p x <;> cases q x <;> rfl)

theorem perm_filter_five {α : Type} (l : List α) (pa pb pc pd : α → Bool) :
    List.Perm
      (l.filter pa ++ (l.filter (fun x => !pa x && pb x) ++
       (l.filter (fun x => (!pa x && !pb x) && pc x) ++
        (l.filter (fun x => ((!pa x && !pb x) && !pc x) && pd x) ++
         l.filter (fun x => ((!pa x && !pb x) && !pc x) && !pd x))))) l := by
  have s1 : List.Perm l (l.filter pa ++ l.filter (fun x => !pa x)) :=
    (List.filter_append_perm pa l).symm
  have s2 : List.Perm (l.filter (fun x => !pa x))
      (l.filter (fun x => !pa x && pb x) ++ l.filter (fun x => !pa x && !pb x)) := by
    have h := (List.filter_append_perm pb (l.filter (fun x => !pa x))).symm
    rw [filter_and_of_filter, filter_and_of_filter] at h
    exact h
  have s3 : List.Perm (l.filter (fun x => !pa x && !pb x))
      (l.filter (fun x => (!pa x && !pb x) && pc x) ++
       l.filter (fun x => (!pa x && !pb x) && !pc x)) := by
    have h := (List.filter_append_perm pc (l.filter (fun x => !pa x && !pb x))).symm
    rw [filter_and_of_filter, filter_and_of_filter] at h
    exact h
  have s4 : List.Perm (l.filter (fun x => (!pa x && !pb x) && !pc x))
      (l.filter (fun x => ((!pa x && !pb x) && !pc x) && pd x) ++
       l.filter (fun x => ((!pa x && !pb x) && !pc x) && !pd x)) := by
    have h := (List.filter_append_perm pd
      (l.filter (fun x => (!pa x && !pb x) && !pc x))).symm
    rw [filter_and_of_filter, filter_and_of_filter] at h
    exact h
  exact (s1.trans (List.Perm.append_left _
    (s2.trans (List.Perm.append_left _
      (s3.trans (List.Perm.append_left _ s4)))))).symm

theorem categorize_flatten_perm (ps : List String) :
    List.Perm (((categorize_endpoints ps).map Prod.snd).flatten) ps := by
  rw [categorize_endpoints_eq, flatten_filter_nonempty]
  simp only [List.map_cons, List.map_nil, List.flatten_cons, List.flatten_nil,
    List.append_nil]
  simp only [eCre, eGet, eUpd, eDel, eOth]
  exact perm_filter_five ps _ _ _ _

theorem allStrs_map (ps : List String) : allStrs (ps.map J.jstr) = some ps := by
  induction ps with
  | nil => rfl
  | cons p rest ih => simp [allStrs, ih]

/-- Claim C3: a category Group with at most 10 pages is emitted unchanged
(a flat list of leaves), while one with 11 or more pages is replaced by
accordion action-type sub-Groups and the sub-Groups' combined item count
equals the original page count (and no empty sub-Group is emitted). -/
theorem c3_accordion_threshold (n : String) (ps : List String) :
    (ps.length ≤ 10 →
      accTransformGroup (J.jobj [("group", J.jstr n),
          ("pages", J.jarr (ps.map J.jstr))]) =
        J.jobj [("group", J.jstr n), ("pages", J.jarr (ps.map J.jstr))]) ∧
    (10 < ps.length →
      accTransformGroup (J.jobj [("group", J.jstr n),
          ("pages", J.jarr (ps.map J.jstr))]) =
        J.jobj [("group", J.jstr n), ("pages", J.jarr (accSubgroups ps))] ∧
      ((categorize_endpoints ps).map (fun kv => kv.2.length)).sum = ps.length ∧
      ∀ kv ∈ categorize_endpoints ps, kv.2 ≠ []) := by
  constructor
  · intro h
    have hn : ¬ (10 < ps.length) := by omega
    simp [accTransformGroup, lookupK, hn]
  · intro h
    refine ⟨?_, ?_, ?_⟩
    · simp [accTransformGroup, lookupK, h, allStrs_map]
    · have hperm := categorize_flatten_perm ps
      have hlen := hperm.length_eq
      rw [List.length_flatten, List.map_map] at hlen
      simpa [Function.comp] using hlen
    · intro kv hkv
      unfold categorize_endpoints at hkv
      have h2 := (List.mem_filter.mp hkv).2
      simpa using h2

/-- Witness for C3 at categories of exactly 10 and exactly 11 pages. -/
theorem c3_accordion_threshold_witness :
    accTransformGroup (J.jobj [("group", J.jstr "Camera"),
        ("pages", J.jarr (["c-a0", "c-a1", "c-a2", "c-a3", "c-a4", "c-a5",
          "c-a6", "c-a7", "c-a8", "c-a9"].map J.jstr))]) =
      J.jobj [("group", J.jstr "Camera"),
        ("pages", J.jarr (["c-a0", "c-a1", "c-a2", "c-a3", "c-a4", "c-a5",
          "c-a6", "c-a7", "c-a8", "c-a9"].map J.jstr))] ∧
    accTransformGroup (J.jobj [("group", J.jstr "Camera"),
        ("pages", J.jarr (["c-a0", "c-a1", "c-a2", "c-a3", "c-a4", "c-a5",
          "c-a6", "c-a7", "c-a8", "c-a9", "c-a10"].map J.jstr))]) =
      J.jobj [("group", J.jstr "Camera"),
        ("pages", J.jarr (accSubgroups ["c-a0", "c-a1", "c-a2", "c-a3",
          "c-a4", "c-a5", "c-a6", "c-a7", "c-a8", "c-a9", "c-a10"]))] ∧
    ((categorize_endpoints ["c-a0", "c-a1", "c-a2", "c-a3", "c-a4", "c-a5",
        "c-a6", "c-a7", "c-a8", "c-a9", "c-a10"]).map
      (fun kv => kv.2.length)).sum = 11 :=
  ⟨(c3_accordion_threshold "Camera" _).1 (by decide),
   ((c3_accordion_threshold "Camera" _).2 (by decide)).1,
   ((c3_accordion_threshold "Camera" _).2 (by decide)).2.1⟩

/- ## Claims C4 and C5: the service-level tree builder -/

theorem lookupK_append_single_ne {α : Type} (st : List (String × α)) (k s : String)
    (v : α) (h : k ≠ s) : lookupK (st ++ [(k, v)]) s = lookupK st s := by
  induction st with
  | nil => simp [lookupK, h]
  | cons p rest ih =>
    obtain ⟨k0, v0⟩ := p
    by_cases h0 : k0 = s
    · simp [lookupK, h0]
    · simp [lookupK, h0, ih]

theorem lookupK_appendServiceK_self (st : List (String × List J)) (k : String) (g : J) :
    lookupK (appendServiceK st k g) k = some (((lookupK st k).getD []) ++ [g]) := by
  unfold appendServiceK
  cases h : lookupK st k with
  | none =>
    rw [lookupK_append_absent st k k [g] h]
    simp
  | some b =>
    rw [lookupK_setK_self]
    simp

theorem lookupK_appendServiceK_ne (st : List (String × List J)) (k s : String)
    (g : J) (h : k ≠ s) : lookupK (appendServiceK st k g) s = lookupK st s := by
  unfold appendServiceK
  cases hk : lookupK st k with
  | none => exact lookupK_append_single_ne st k s [g] h
  | some b => exact lookupK_setK_ne st k s _ h

theorem svcLoop_fst_lookup (gs : List J) (acc : List (String × List J) × List J)
    (s : String) (hs : s ≠ "Other Services") :
    lookupK (gs.foldl svcStep acc).1 s =
      (match lookupK acc.1 s with
       | some b => some (b ++ gs.filter (fun g => catOfG g == s))
       | none =>
         if (gs.filter (fun g => catOfG g == s)).isEmpty then none
         else some (gs.filter (fun g => catOfG g == s))) := by
  induction gs generalizing acc with
  | nil => cases h : lookupK acc.1 s <;> simp [h]
  | cons g rest ih =>
    rw [List.foldl_cons, ih (svcStep acc g)]
    by_cases hog : catOfG g = "Other Services"
    · have hbe : (categorize_group (getGName g) == "Other Services") = true := by
        simp [show categorize_group (getGName g) = catOfG g from rfl, hog]
      have hgs : (catOfG g == s) = false := by
        rw [hog]
        exact beq_eq_false_iff_ne.mpr (Ne.symm hs)
      have hstep : svcStep acc g = (acc.1, acc.2 ++ [g]) := by
        simp [svcStep, hbe]
      rw [hstep, List.filter_cons, hgs]
      simp
    · have hbe : (categorize_group (getGName g) == "Other Services") = false :=
        beq_eq_false_iff_ne.mpr hog
      have hstep : svcStep acc g = (appendServiceK acc.1 (catOfG g) g, acc.2) := by
        simp [svcStep, hbe]
        rfl
      rw [hstep]
      by_cases hgs : catOfG g = s
      · have hbs : (catOfG g == s) = true := by simp [hgs]
        rw [List.filter_cons, hbs]
        simp only [if_pos rfl]
        rw [show appendServiceK acc.1 (catOfG g) g = appendServiceK acc.1 s g from by
          rw [hgs]]
        rw [lookupK_appendServiceK_self]
        cases hb : lookupK acc.1 s with
        | some b => simp [hb]
        | none => simp [hb]
      · have hbs : (catOfG g == s) = false := beq_eq_false_iff_ne.mpr hgs
        rw [List.filter_cons, hbs]
        rw [lookupK_appendServiceK_ne acc.1 (catOfG g) s g hgs]
        simp

theorem svcLoop_snd (gs : List J) (acc : List (String × List J) × List J) :
    (gs.foldl svcStep acc).2 =
      acc.2 ++ gs.filter (fun g => catOfG g == "Other Services") := by
  induction gs generalizing acc with
  | nil => simp
  | cons g rest ih =>
    rw [List.foldl_cons, ih (svcStep acc g)]
    by_cases hog : catOfG g = "Other Services"
    · have hbe : (categorize_group (getGName g) == "Other Services") = true := by
        simp [show categorize_group (getGName g) = catOfG g from rfl, hog]
      have hbe2 : (catOfG g == "Other Services") = true := hbe
      have hstep : svcStep acc g = (acc.1, acc.2 ++ [g]) := by
        simp [svcStep, hbe]
      rw [hstep, List.filter_cons, hbe2]
      simp
    · have hbe : (categorize_group (getGName g) == "Other Services") = false :=
        beq_eq_false_iff_ne.mpr hog
      have hbe2 : (catOfG g == "Other Services") = false := hbe
      have hstep : svcStep acc g = (appendServiceK acc.1 (catOfG g) g, acc.2) := by
        simp [svcStep, hbe]
        rfl
      rw [hstep, List.filter_cons, hbe2]
      simp

theorem filterMap_congr_on {α β : Type} (l : List α) (f g : α → Option β)
    (h : ∀ x ∈ l, f x = g x) : l.filterMap f = l.filterMap g := by
  induction l with
  | nil => rfl
  | cons x xs ih =>
    rw [List.filterMap_cons, List.filterMap_cons, h x (by simp),
      ih (fun y hy => h y (by simp [hy]))]

theorem serviceBucketsOut_eq (gs : List J) :
    serviceBucketsOut gs =
      ((SERVICE_GROUPS.map Prod.fst).filterMap (fun s =>
        if (gs.filter (fun g => catOfG g == s)).isEmpty then none
        else some (s, gs.filter (fun g => catOfG g == s))))
      ++ (if (gs.filter (fun g => catOfG g == "Other Services")).isEmpty then []
          else [("Other Services",
            gs.filter (fun g => catOfG g == "Other Services"))]) := by
  unfold serviceBucketsOut svcLoop
  have hnames : ∀ s ∈ SERVICE_GROUPS.map Prod.fst, s ≠ "Other Services" := by decide
  have hsnd : (gs.foldl svcStep ([], [])).2 =
      gs.filter (fun g => catOfG g == "Other Services") := by
    rw [svcLoop_snd]
    simp
  rw [hsnd]
  congr 1
  apply filterMap_congr_on
  intro s hsmem
  rw [svcLoop_fst_lookup gs ([], []) s (hnames s hsmem)]
  simp only [lookupK]
  by_cases h : (gs.filter (fun g => catOfG g == s)).isEmpty = true
  · simp [h]
  · rw [Bool.not_eq_true] at h
    simp [h]

theorem catFromTable_first (tbl : List (String × List String)) (n : String) :
    (∃ pre q post, tbl = pre ++ q :: post ∧ q.2.contains n = true ∧
      (∀ p ∈ pre, p.2.contains n = false) ∧ catFromTable tbl n = q.1) ∨
    ((∀ p ∈ tbl, p.2.contains n = false) ∧
      catFromTable tbl n = "Other Services") := by
  induction tbl with
  | nil => right; exact ⟨by simp, rfl⟩
  | cons p rest ih =>
    obtain ⟨svc, mem⟩ := p
    by_cases hmem : mem.contains n = true
    · have hin : n ∈ mem := by simpa using hmem
      left
      exact ⟨[], (svc, mem), rest, by simp, hmem, by simp,
        by simp [catFromTable, hin]⟩
    · rw [Bool.not_eq_true] at hmem
      have hout : n ∉ mem := by simpa using hmem
      rcases ih with ⟨pre, q, post, heq, hq, hpre, hcat⟩ | ⟨hall, hcat⟩
      · left
        refine ⟨(svc, mem) :: pre, q, post, by rw [heq]; rfl, hq, ?_, ?_⟩
        · intro p hp
          rcases List.mem_cons.mp hp with h1 | h2
          · rw [h1]; exact hmem
          · exact hpre p h2
        · simp [catFromTable, hout, hcat]
      · right
        refine ⟨?_, by simp [catFromTable, hout, hcat]⟩
        intro p hp
        rcases List.mem_cons.mp hp with h1 | h2
        · rw [h1]; exact hmem
        · exact hall p h2

theorem catFromTable_mem_names (tbl : List (String × List String)) (n : String) :
    catFromTable tbl n = "Other Services" ∨
      catFromTable tbl n ∈ tbl.map Prod.fst := by
  induction tbl with
  | nil => left; rfl
  | cons p rest ih =>
    obtain ⟨svc, mem⟩ := p
    by_cases hmem : mem.contains n = true
    · have hin : n ∈ mem := by simpa using hmem
      right
      simp [catFromTable, hin]
    · rw [Bool.not_eq_true] at hmem
      have hout : n ∉ mem := by simpa using hmem
      rcases ih with h1 | h2
      · left
        simp [catFromTable, hout, h1]
      · right
        have hred : catFromTable ((svc, mem) :: rest) n = catFromTable rest n := by
          simp [catFromTable, hout]
        rw [hred, List.map_cons]
        exact List.mem_cons_of_mem _ h2

theorem perm_partition_keys {α : Type} (k : α → String) :
    ∀ (keys : List String), keys.Nodup → ∀ (l : List α),
    List.Perm ((keys.map (fun s => l.filter (fun g => k g == s))).flatten ++
      l.filter (fun g => !(keys.contains (k g)))) l := by
  intro keys
  induction keys with
  | nil =>
    intro _ l
    simp [List.filter_true]
  | cons s ks ih =>
    intro hnd l
    have hs : s ∉ ks := (List.nodup_cons.mp hnd).1
    have hkd : ks.Nodup := (List.nodup_cons.mp hnd).2
    have hsplit := List.filter_append_perm (fun g => k g == s) l
    have ihl := ih hkd (l.filter (fun g => !(k g == s)))
    have hmap : ks.map (fun t => (l.filter (fun g => !(k g == s))).filter
          (fun g => k g == t)) =
        ks.map (fun t => l.filter (fun g => k g == t)) := by
      apply List.map_congr_left
      intro t ht
      rw [filter_and_of_filter]
      apply List.filter_congr
      intro g hg
      have hts : t ≠ s := fun heq => hs (heq ▸ ht)
      cases hkg : (k g == t) with
      | false => simp
      | true =>
        have hkgt : k g = t := by simpa using hkg
        have : (k g == s) = false := beq_eq_false_iff_ne.mpr (by rw [hkgt]; exact hts)
        simp [this]
    have hother : (l.filter (fun g => !(k g == s))).filter
          (fun g => !(ks.contains (k g))) =
        l.filter (fun g => !((s :: ks).contains (k g))) := by
      rw [filter_and_of_filter]
      apply List.filter_congr
      intro g hg
      rw [List.contains_cons]
      cases h1 : (k g == s) <;> cases h2 : ks.contains (k g) <;> rfl
    rw [hmap, hother] at ihl
    simp only [List.map_cons, List.flatten_cons]
    rw [List.append_assoc]
    exact (List.Perm.append_left _ ihl).trans hsplit

theorem flatten_snd_filterMap (names : List String) (F : String → List J) :
    ((names.filterMap (fun s =>
        if (F s).isEmpty then none else some (s, F s))).map Prod.snd).flatten =
      (names.map F).flatten := by
  induction names with
  | nil => rfl
  | cons s ns ih =>
    by_cases h : (F s).isEmpty = true
    · have h2 : F s = [] := List.isEmpty_iff.mp h
      simp [List.filterMap_cons, h, h2, ih]
    · rw [Bool.not_eq_true] at h
      simp [List.filterMap_cons, h, ih]

theorem other_filter_congr (gs : List J) :
    gs.filter (fun g => catOfG g == "Other Services") =
      gs.filter (fun g => !((SERVICE_GROUPS.map Prod.fst).contains (catOfG g))) := by
  apply List.filter_congr
  intro g hg
  rcases catFromTable_mem_names SERVICE_GROUPS (getGName g) with h1 | h2
  · have hb : catOfG g = "Other Services" := h1
    have hnotin : ((SERVICE_GROUPS.map Prod.fst).contains "Other Services") = false := by
      decide
    rw [hb, hnotin]
    rfl
  · have h2b : catOfG g ∈ SERVICE_GROUPS.map Prod.fst := h2
    have hcont : ((SERVICE_GROUPS.map Prod.fst).contains (catOfG g)) = true := by
      simpa using h2b
    have hnames : ∀ s ∈ SERVICE_GROUPS.map Prod.fst, s ≠ "Other Services" := by decide
    have hne : catOfG g ≠ "Other Services" := hnames _ h2b
    rw [hcont, beq_eq_false_iff_ne.mpr hne]
    rfl

theorem service_flatten_perm (gs : List J) :
    List.Perm (((serviceBucketsOut gs).map Prod.snd).flatten) gs := by
  rw [serviceBucketsOut_eq, List.map_append, List.flatten_append,
    flatten_snd_filterMap]
  have hnd : (SERVICE_GROUPS.map Prod.fst).Nodup := by decide
  have hbase := perm_partition_keys catOfG (SERVICE_GROUPS.map Prod.fst) hnd gs
  rw [← other_filter_congr] at hbase
  by_cases h : (gs.filter (fun g => catOfG g == "Other Services")).isEmpty = true
  · have h2 : gs.filter (fun g => catOfG g == "Other Services") = [] :=
      List.isEmpty_iff.mp h
    rw [h2] at hbase
    simpa [h] using hbase
  · rw [Bool.not_eq_true] at h
    simpa [h] using hbase

/-- Claim C4: both tree builders (the action-type accordion partition and
the service-level partition) emit Groups whose items form exactly the
input as a multiset — nothing dropped, nothing duplicated — and each
emitted Group's items keep the relative order they had in the input
(a stable partition, witnessed by each bucket being a sublist). -/
theorem c4_partition_stable :
    (∀ pages : List String,
      List.Perm (((categorize_endpoints pages).map Prod.snd).flatten) pages ∧
      ∀ kv ∈ categorize_endpoints pages, List.Sublist kv.2 pages) ∧
    (∀ gs : List J,
      List.Perm (((serviceBucketsOut gs).map Prod.snd).flatten) gs ∧
      ∀ kv ∈ serviceBucketsOut gs, List.Sublist kv.2 gs) := by
  constructor
  · intro pages
    refine ⟨categorize_flatten_perm pages, ?_⟩
    intro kv hkv
    rw [categorize_endpoints_eq] at hkv
    have h1 := (List.mem_filter.mp hkv).1
    simp only [List.mem_cons, List.not_mem_nil, or_false] at h1
    rcases h1 with h | h | h | h | h <;>
      · rw [h]
        exact List.filter_sublist pages
  · intro gs
    refine ⟨service_flatten_perm gs, ?_⟩
    intro kv hkv
    rw [serviceBucketsOut_eq] at hkv
    rcases List.mem_append.mp hkv with hin | hin
    · obtain ⟨s, hsmem, heq⟩ := List.mem_filterMap.mp hin
      by_cases h : (gs.filter (fun g => catOfG g == s)).isEmpty = true
      · rw [if_pos h] at heq
        simp at heq
      · rw [Bool.not_eq_true] at h
        rw [if_neg (by simp [h])] at heq
        have : kv = (s, gs.filter (fun g => catOfG g == s)) := by
          simpa using heq.symm
        rw [this]
        exact List.filter_sublist gs
    · by_cases h : (gs.filter (fun g => catOfG g == "Other Services")).isEmpty = true
      · rw [if_pos h] at hin
        simp at hin
      · rw [Bool.not_eq_true] at h
        rw [if_neg (by simp [h])] at hin
        have : kv = ("Other Services",
            gs.filter (fun g => catOfG g == "Other Services")) := by
          simpa using hin
        rw [this]
        exact List.filter_sublist gs

/-- Witness for C4 at concrete inputs. -/
theorem c4_partition_stable_witness :
    List.Perm (((categorize_endpoints
        ["camera-getA", "camera-reboot"]).map Prod.snd).flatten)
      ["camera-getA", "camera-reboot"] ∧
    List.Perm (((serviceBucketsOut
        [J.jobj [("group", J.jstr "Camera"), ("pages", J.jarr [])]]).map
        Prod.snd).flatten)
      [J.jobj [("group", J.jstr "Camera"), ("pages", J.jarr [])]] :=
  ⟨(c4_partition_stable.1 ["camera-getA", "camera-reboot"]).1,
   (c4_partition_stable.2
     [J.jobj [("group", J.jstr "Camera"), ("pages", J.jarr [])]]).1⟩

theorem map_fst_filterMap_if (names : List String) (F : String → List J) :
    ((names.filterMap (fun s =>
        if (F s).isEmpty then none else some (s, F s))).map Prod.fst) =
      names.filter (fun s => !(F s).isEmpty) := by
  induction names with
  | nil => rfl
  | cons s ns ih =>
    by_cases h : (F s).isEmpty = true
    · simp [List.filterMap_cons, h, List.filter_cons, ih]
    · rw [Bool.not_eq_true] at h
      simp [List.filterMap_cons, h, List.filter_cons, ih]

/-- Claim C5: `categorize_group` returns exactly one bucket — the first
bucket in SERVICE_GROUPS' declared enumeration order whose member list
contains the name by exact match, with the sentinel "Other Services" when
none does — and the emitted service Groups follow the declared
enumeration order, with the non-empty sentinel bucket appended as the
final Group. -/
theorem c5_service_classification :
    (∀ n : String,
      (∃ pre q post, SERVICE_GROUPS = pre ++ q :: post ∧
        q.2.contains n = true ∧ (∀ p ∈ pre, p.2.contains n = false) ∧
        categorize_group n = q.1) ∨
      ((∀ p ∈ SERVICE_GROUPS, p.2.contains n = false) ∧
        categorize_group n = "Other Services")) ∧
    (∀ gs : List J,
      (serviceBucketsOut gs).map Prod.fst =
        ((SERVICE_GROUPS.map Prod.fst).filter
          (fun s => !(gs.filter (fun g => catOfG g == s)).isEmpty)) ++
        (if (gs.filter (fun g => catOfG g == "Other Services")).isEmpty then []
         else ["Other Services"])) := by
  constructor
  · intro n
    exact catFromTable_first SERVICE_GROUPS n
  · intro gs
    rw [serviceBucketsOut_eq, List.map_append, map_fst_filterMap_if]
    congr 1
    by_cases h : (gs.filter (fun g => catOfG g == "Other Services")).isEmpty = true
    · simp [h]
    · rw [Bool.not_eq_true] at h
      simp [h]

/-- Witness for C5: concrete classifications and a concrete emission
order (declared services first, sentinel last). -/
theorem c5_service_classification_witness :
    (serviceBucketsOut
      [J.jobj [("group", J.jstr "Export"), ("pages", J.jarr [])],
       J.jobj [("group", J.jstr "Camera"), ("pages", J.jarr [])],
       J.jobj [("group", J.jstr "Weird"), ("pages", J.jarr [])]]).map Prod.fst =
      ["Core Services", "Media & Video", "Other Services"] := by
  rw [c5_service_classification.2]
  decide

/- ## Claim C7: the summarizer's endpoint counting -/

theorem travJ_jstr (f : Nat) (s : String) (cc : Option String)
    (cs : List (String × Nat)) : travJ f (J.jstr s) cc cs = cs := by
  cases f <;> rfl

theorem foldl_travJ_strs (f : Nat) (ps : List String) (cc : Option String)
    (cs : List (String × Nat)) :
    (ps.map J.jstr).foldl (fun acc x => travJ f x cc acc) cs = cs := by
  induction ps generalizing cs with
  | nil => rfl
  | cons p rest ih =>
    rw [List.map_cons, List.foldl_cons, travJ_jstr]
    exact ih cs

theorem travJ_jarr_strs (f : Nat) (ps : List String) (cc : Option String)
    (cs : List (String × Nat)) :
    travJ f (J.jarr (ps.map J.jstr)) cc cs = cs := by
  cases f with
  | zero => rfl
  | succ f2 =>
    show (ps.map J.jstr).foldl (fun acc x => travJ f2 x cc acc) cs = cs
    exact foldl_travJ_strs f2 ps cc cs

theorem pages_fold_bump (f : Nat) (n : String) (hn : n ≠ "") (ps : List String) :
    ∀ (k : Nat) (cs : List (String × Nat)),
    (ps.map J.jstr).foldl (fun acc p =>
        match p with
        | J.jstr _ => ccBump (some n) acc
        | J.jobj pkvs => travJ f (J.jobj pkvs) (some n) acc
        | _ => acc) (setK cs n k) = setK cs n (k + ps.length) := by
  induction ps with
  | nil => intro k cs; simp
  | cons p rest ih =>
    intro k cs
    rw [List.map_cons, List.foldl_cons]
    have hb : (n == "") = false := beq_eq_false_iff_ne.mpr hn
    have hstep : ccBump (some n) (setK cs n k) = setK cs n (k + 1) := by
      show (if (n == "") = true then setK cs n k else incrK (setK cs n k) n) =
        setK cs n (k + 1)
      rw [hb]
      simp only [Bool.false_eq_true, if_false]
      rw [incrK_of_lookup (setK cs n k) n k (lookupK_setK_self cs n k), setK_setK]
    show (rest.map J.jstr).foldl _ (ccBump (some n) (setK cs n k)) = _
    rw [hstep, ih (k + 1) cs]
    congr 1
    simp
    omega

theorem trav_encG (f : Nat) (g : NavGroup) (hn : g.name ≠ "") (cc : Option String)
    (cs : List (String × Nat)) :
    travJ (f + 1) (encG g) cc cs = setK cs g.name g.pages.length := by
  have hbridge : travJ (f + 1) (encG g) cc cs =
      travJ f (J.jarr (g.pages.map J.jstr)) (some g.name)
        (travJ f (J.jstr g.name) (some g.name)
          ((g.pages.map J.jstr).foldl (fun acc p =>
            match p with
            | J.jstr _ => ccBump (some g.name) acc
            | J.jobj pkvs => travJ f (J.jobj pkvs) (some g.name) acc
            | _ => acc) (setK cs g.name 0))) := rfl
  rw [hbridge, pages_fold_bump f g.name hn g.pages 0 cs, travJ_jstr, travJ_jarr_strs]
  simp

theorem groups_fold (gs : List NavGroup) (f : Nat) (hf : f ≠ 0)
    (hne : ∀ g ∈ gs, g.name ≠ "") (cs : List (String × Nat)) :
    (gs.map encG).foldl (fun acc x => travJ f x none acc) cs =
      gs.foldl (fun acc g => setK acc g.name g.pages.length) cs := by
  obtain ⟨f2, rfl⟩ : ∃ f2, f = f2 + 1 := ⟨f - 1, by omega⟩
  induction gs generalizing cs with
  | nil => rfl
  | cons g rest ih =>
    rw [List.map_cons, List.foldl_cons, List.foldl_cons,
      trav_encG f2 g (hne g (by simp)) none cs]
    exact ih (fun g2 hg2 => hne g2 (by simp [hg2])) _

theorem fold_setK_map (gs : List NavGroup) :
    ∀ acc, (∀ g ∈ gs, lookupK acc g.name = none) →
    (gs.map NavGroup.name).Nodup →
    gs.foldl (fun acc g => setK acc g.name g.pages.length) acc =
      acc ++ gs.map (fun g => (g.name, g.pages.length)) := by
  induction gs with
  | nil => intro acc _ _; simp
  | cons g rest ih =>
    intro acc habs hnd
    rw [List.map_cons] at hnd
    have hgn : g.name ∉ rest.map NavGroup.name := (List.nodup_cons.mp hnd).1
    have hnd2 : (rest.map NavGroup.name).Nodup := (List.nodup_cons.mp hnd).2
    rw [List.foldl_cons,
      setK_absent acc g.name g.pages.length (habs g (by simp))]
    have habs2 : ∀ g2 ∈ rest,
        lookupK (acc ++ [(g.name, g.pages.length)]) g2.name = none := by
      intro g2 hg2
      rw [lookupK_append_absent acc g.name g2.name _ (habs g2 (by simp [hg2]))]
      have : g.name ≠ g2.name := by
        intro heq
        exact hgn (heq ▸ List.mem_map_of_mem NavGroup.name hg2)
      simp [this]
    rw [ih _ habs2 hnd2]
    simp

/-- Counterexample to C7 as stated: with two distinct Groups sharing the
display name "X" (1 and 2 leaves), the later-traversed Group's counter
reset discards the earlier Group's count, so the aggregate total is 2
while the document has 3 string leaves. -/
theorem c7_duplicate_names_counterexample :
    count_endpoints_in_nav (encodeNav "API reference"
      [⟨"X", ["a"]⟩, ⟨"X", ["b", "c"]⟩]) = [("X", 2)] ∧
    sumVals (count_endpoints_in_nav (encodeNav "API reference"
      [⟨"X", ["a"]⟩, ⟨"X", ["b", "c"]⟩])) = 2 ∧
    (([⟨"X", ["a"]⟩, ⟨"X", ["b", "c"]⟩] : List NavGroup).map
      (fun g => g.pages.length)).sum = 3 :=
  ⟨rfl, rfl, rfl⟩

/-- Claim C7 (amended): on a navigation document whose Groups bear
pairwise-distinct non-empty display names, the recursive walk assigns
each Group name its number of string leaves and the aggregate total
equals the total leaf count; when distinct Groups share a display name,
the later-traversed Group's count overwrites the earlier one's and the
aggregate undercounts. -/
theorem c7_count_endpoints (t : String) (gs : List NavGroup)
    (hnd : (gs.map NavGroup.name).Nodup) (hne : ∀ g ∈ gs, g.name ≠ "") :
    count_endpoints_in_nav (encodeNav t gs) =
      gs.map (fun g => (g.name, g.pages.length)) ∧
    sumVals (count_endpoints_in_nav (encodeNav t gs)) =
      (gs.map (fun g => g.pages.length)).sum := by
  have h1 : count_endpoints_in_nav (encodeNav t gs) =
      (gs.map encG).foldl (fun acc x => travJ 996 x none acc) [] := rfl
  rw [h1, groups_fold gs 996 (by decide) hne [],
    fold_setK_map gs [] (by intro g _; rfl) hnd]
  constructor
  · simp
  · rw [List.nil_append, sumVals_eq, List.map_map]
    rfl

/-- Witness for C7 (amended) at a concrete two-group document. -/
theorem c7_count_endpoints_witness :
    count_endpoints_in_nav (encodeNav "API reference"
      [⟨"Camera", ["a", "b"]⟩, ⟨"Door", ["c"]⟩]) =
      [("Camera", 2), ("Door", 1)] :=
  (c7_count_endpoints "API reference" [⟨"Camera", ["a", "b"]⟩, ⟨"Door", ["c"]⟩]
    (by decide) (by decide)).1

/- ## Claim C10: the icon frontmatter updater -/

theorem eatPat_eq (p : List Char) : ∀ (s r : List Char),
    eatPat p s = some r → s = p ++ r := by
  induction p with
  | nil =>
    intro s r h
    simp [eatPat] at h
    simp [h]
  | cons c cs ih =>
    intro s r h
    cases s with
    | nil => simp [eatPat] at h
    | cons d ds =>
      rw [eatPat] at h
      by_cases hd : c = d
      · rw [if_pos hd] at h
        rw [List.cons_append, hd, ih ds r h]
      · rw [if_neg hd] at h
        simp at h

theorem scanQuote_spec : ∀ (s v r : List Char),
    scanQuote s = some (v, r) → s = v ++ '"' :: r ∧ '"' ∉ v := by
  intro s
  induction s with
  | nil => intro v r h; simp [scanQuote] at h
  | cons c cs ih =>
    intro v r h
    by_cases hc : c = '"'
    · subst hc
      rw [scanQuote] at h
      simp at h
      rw [h.1, h.2]
      exact ⟨rfl, by simp⟩
    · rw [scanQuote.eq_def] at h
      split at h
      · simp at h
      · rename_i heq
        rw [List.cons.injEq] at heq
        exact absurd heq.1 hc
      · rename_i c2 cs2 hne heq
        rw [List.cons.injEq] at heq
        obtain ⟨hc2, hcs2⟩ := heq
        subst hc2
        subst hcs2
        cases hsq : scanQuote cs with
        | none => rw [hsq] at h; simp at h
        | some pr =>
          rw [hsq] at h
          simp at h
          obtain ⟨hv, hr⟩ := h
          obtain ⟨hcs, hnq⟩ := ih pr.1 pr.2 (by rw [hsq])
          constructor
          · rw [← hv, ← hr, List.cons_append, hcs]
          · rw [← hv]
            intro hmem
            rcases List.mem_cons.mp hmem with h1 | h2
            · exact hc h1.symm
            · exact hnq h2

theorem tryIcon_eq (s v r : List Char) (h : tryIcon s = some (v, r)) :
    s = iconPat ++ v ++ '"' :: r ∧ '"' ∉ v := by
  unfold tryIcon at h
  cases he : eatPat iconPat s with
  | none => rw [he] at h; simp at h
  | some rest =>
    rw [he] at h
    obtain ⟨hrest, hnq⟩ := scanQuote_spec rest v r h
    refine ⟨?_, hnq⟩
    rw [eatPat_eq iconPat s rest he, hrest, List.append_assoc]

theorem tryIcon_len (s v r : List Char) (h : tryIcon s = some (v, r)) :
    r.length + 8 ≤ s.length := by
  obtain ⟨heq, _⟩ := tryIcon_eq s v r h
  rw [heq]
  simp [iconPat]

theorem renderOrig_cons (x : Sum Char (List Char))
    (d : List (Sum Char (List Char))) :
    renderOrig (x :: d) = renderOrigPiece x ++ renderOrig d := by
  simp [renderOrig]

theorem renderIcon_cons (x : Sum Char (List Char))
    (d : List (Sum Char (List Char))) (icon : List Char) :
    renderIcon (x :: d) icon = renderPiece icon x ++ renderIcon d icon := by
  simp [renderIcon]

theorem renderOrig_decompF : ∀ (n : Nat) (l : List Char) (f : Nat),
    l.length < f → l.length ≤ n → renderOrig (decompF f l) = l := by
  intro n
  induction n with
  | zero =>
    intro l f hf hn
    have : l = [] := List.length_eq_zero.mp (by omega)
    subst this
    obtain ⟨f2, rfl⟩ : ∃ f2, f = f2 + 1 := ⟨f - 1, by omega⟩
    rfl
  | succ n ih =>
    intro l f hf hn
    cases l with
    | nil =>
      obtain ⟨f2, rfl⟩ : ∃ f2, f = f2 + 1 := ⟨f - 1, by omega⟩
      rfl
    | cons c cs =>
      obtain ⟨f2, rfl⟩ : ∃ f2, f = f2 + 1 := ⟨f - 1, by omega⟩
      simp only [List.length_cons] at hf hn
      rw [decompF]
      cases htry : tryIcon (c :: cs) with
      | some pr =>
        obtain ⟨v, rest⟩ := pr
        have hlen := tryIcon_len (c :: cs) v rest htry
        simp only [List.length_cons] at hlen
        have heq := (tryIcon_eq (c :: cs) v rest htry).1
        rw [renderOrig_cons,
          ih rest f2 (by omega) (by omega), heq]
        simp [renderOrigPiece]
      | none =>
        rw [renderOrig_cons, ih cs f2 (by omega) (by omega)]
        rfl

theorem renderOrig_decompIcon (l : List Char) :
    renderOrig (decompIcon l) = l :=
  renderOrig_decompF l.length l (l.length + 1) (by omega) (by omega)

theorem decompF_no_icon : ∀ (n : Nat) (l : List Char) (f : Nat),
    l.length < f → l.length ≤ n → hasIconF l = false →
    decompF f l = l.map Sum.inl := by
  intro n
  induction n with
  | zero =>
    intro l f hf hn hno
    have : l = [] := List.length_eq_zero.mp (by omega)
    subst this
    obtain ⟨f2, rfl⟩ : ∃ f2, f = f2 + 1 := ⟨f - 1, by omega⟩
    rfl
  | succ n ih =>
    intro l f hf hn hno
    cases l with
    | nil =>
      obtain ⟨f2, rfl⟩ : ∃ f2, f = f2 + 1 := ⟨f - 1, by omega⟩
      rfl
    | cons c cs =>
      obtain ⟨f2, rfl⟩ : ∃ f2, f = f2 + 1 := ⟨f - 1, by omega⟩
      simp only [List.length_cons] at hf hn
      rw [hasIconF] at hno
      simp only [Bool.or_eq_false_iff] at hno
      have htry : tryIcon (c :: cs) = none := by
        cases htry : tryIcon (c :: cs) with
        | none => rfl
        | some pr => rw [htry] at hno; simp at hno
      rw [decompF, htry, List.map_cons]
      rw [ih cs f2 (by omega) (by omega) hno.2]

theorem renderIcon_map_inl (l icon : List Char) :
    renderIcon (l.map Sum.inl) icon = l := by
  induction l with
  | nil => rfl
  | cons c cs ih =>
    rw [List.map_cons, renderIcon_cons, ih]
    rfl

theorem renderIcon_eq_renderOrig (d : List (Sum Char (List Char)))
    (icon : List Char) (h : ∀ v, Sum.inr v ∈ d → v = icon) :
    renderIcon d icon = renderOrig d := by
  induction d with
  | nil => rfl
  | cons x rest ih =>
    have ih2 := ih (fun v hv => h v (by simp [hv]))
    rw [renderIcon_cons, renderOrig_cons, ih2]
    cases x with
    | inl c => rfl
    | inr v =>
      have hv : v = icon := h v (by simp)
      rw [← hv]
      rfl

/-- Claim C10: the icon updater changes only the substrings matched by
the pattern `icon: "[^\x22]*"` — the original content is exactly the
decomposition re-rendered with the original icon values, and the result
is the same decomposition re-rendered with the new icon — and it rewrites
the file returning True exactly when the substituted content differs; in
particular content with no icon field, or whose every icon value already
equals the new one, is left untouched with False returned.  The icon
values the scripts pass contain no quote or backslash, so the literal
replacement model is faithful to `re.sub`'s template expansion. -/
theorem c10_icon_update (content new_icon : String)
    (hq : '"' ∉ new_icon.data) (hbs : '\\' ∉ new_icon.data) :
    renderOrig (decompIcon content.data) = content.data ∧
    (update_endpoint_icon content new_icon).1 =
      String.mk (renderIcon (decompIcon content.data) new_icon.data) ∧
    ((update_endpoint_icon content new_icon).2 = true ↔
      String.mk (renderIcon (decompIcon content.data) new_icon.data) ≠ content) ∧
    (hasIconF content.data = false →
      update_endpoint_icon content new_icon = (content, false)) ∧
    ((∀ v, Sum.inr v ∈ decompIcon content.data → v = new_icon.data) →
      update_endpoint_icon content new_icon = (content, false)) := by
  refine ⟨renderOrig_decompIcon content.data, ?_, ?_, ?_, ?_⟩
  · by_cases h : String.mk (renderIcon (decompIcon content.data) new_icon.data) =
        content
    · simp [update_endpoint_icon, h]
    · simp [update_endpoint_icon, h]
  · by_cases h : String.mk (renderIcon (decompIcon content.data) new_icon.data) =
        content
    · simp [update_endpoint_icon, h]
    · simp [update_endpoint_icon, h]
  · intro hno
    have hd : decompIcon content.data = content.data.map Sum.inl :=
      decompF_no_icon content.data.length content.data (content.data.length + 1)
        (by omega) (by omega) hno
    have hr : String.mk (renderIcon (decompIcon content.data) new_icon.data) =
        content := by
      rw [hd, renderIcon_map_inl]
    simp [update_endpoint_icon, hr]
  · intro hall
    have hr : String.mk (renderIcon (decompIcon content.data) new_icon.data) =
        content := by
      rw [renderIcon_eq_renderOrig _ _ hall, renderOrig_decompIcon]
    simp [update_endpoint_icon, hr]

/-- Witness for C10: a file without an icon field is reported unchanged,
and a concrete icon field is rewritten in place. -/
theorem c10_icon_update_witness :
    update_endpoint_icon "---\ntitle: x\n---\n" "pen" =
      ("---\ntitle: x\n---\n", false) ∧
    update_endpoint_icon "icon: \"eye\"\nrest" "pen" =
      ("icon: \"pen\"\nrest", true) :=
  ⟨(c10_icon_update "---\ntitle: x\n---\n" "pen" (by decide)
      (by decide)).2.2.2.1 (by decide),
   by decide⟩
